import Mathlib

/-!
Verification of the movie_recommender_system ETL core.

Python strings are modelled as lists of characters (`PyStr`), pandas
tables as association lists from column names to columns of cells
(`Table`), numeric values as exact rationals (`ℚ`; binary floating
point rounding is abstracted away, which is exact on every input the
claims exercise), and fallible Python code as `Except String`
computations whose error strings name the Python exception raised.
-/

set_option maxRecDepth 4000

/-- Python strings, modelled as lists of characters. -/
abbrev PyStr := List Char

/-- First index at which `pat` occurs in `s` (Python `s.find(pat)` when the
result is non-negative); `none` when `pat` does not occur. `pat = []` gives
index 0, as in Python. -/
def firstIdxOf? (s pat : PyStr) : Option Nat :=
  if pat.isPrefixOf s then some 0
  else
    match s with
    | [] => none
    | _ :: t => (firstIdxOf? t pat).map (· + 1)

/-- Last index at which `pat` occurs in `s` (Python `s.rfind(pat)` when the
result is non-negative); `none` when `pat` does not occur. -/
def lastIdxOf? (s pat : PyStr) : Option Nat :=
  (((List.range (s.length + 1)).filter (fun i => pat.isPrefixOf (s.drop i))).getLast?)

/-- Python `pat in s` substring test. -/
def pyContains (s pat : PyStr) : Bool :=
  (firstIdxOf? s pat).isSome

/-- Python slice `s[a:b]` for non-negative bounds. -/
def pySlice (s : PyStr) (a b : Nat) : PyStr :=
  (s.drop a).take (b - a)

/-- Worker for `pySplit`: scan left to right, cutting at each occurrence of
the (non-empty) separator; `acc` holds the current piece reversed, and
`skip` counts characters still belonging to the separator just matched. -/
def pySplitGo (sep : PyStr) : PyStr → PyStr → Nat → List PyStr
  | [], acc, _ => [acc.reverse]
  | _ :: rest, acc, skip + 1 => pySplitGo sep rest acc skip
  | c :: rest, acc, 0 =>
    if sep ≠ [] ∧ sep.isPrefixOf (c :: rest) then
      acc.reverse :: pySplitGo sep rest [] (sep.length - 1)
    else
      pySplitGo sep rest (c :: acc) 0

/-- Python `s.split(sep)` for a non-empty separator `sep`: split at every
non-overlapping occurrence, scanning left to right. -/
def pySplit (s sep : PyStr) : List PyStr :=
  pySplitGo sep s [] 0

/-- Digit characters interpreted as a natural number; the empty list gives 0. -/
def digitsVal (s : PyStr) : Nat :=
  s.foldl (fun acc c => acc * 10 + c.toNat - '0'.toNat) 0

/-- Python whitespace stripping (`str.strip()`), for the whitespace the
repository's data contains. -/
def pyStrip (s : PyStr) : PyStr :=
  (((s.dropWhile Char.isWhitespace).reverse).dropWhile Char.isWhitespace).reverse

/-- The decimal fragment of Python `float(s)`: optional sign, then either
`digits`, `digits.digits`, `digits.` or `.digits`, surrounding whitespace
allowed. Exponents, `inf` and `nan` (never produced by the scraped data)
are not modelled. `none` models `float` raising `ValueError`. -/
def pyFloat? (s : PyStr) : Option ℚ :=
  let t := pyStrip s
  let core : PyStr → Option ℚ := fun u =>
    let intPart := u.takeWhile Char.isDigit
    let rest := u.dropWhile Char.isDigit
    match rest with
    | [] => if intPart.isEmpty then none else some (digitsVal intPart : ℚ)
    | '.' :: frac =>
        if frac.all Char.isDigit ∧ ¬(intPart.isEmpty ∧ frac.isEmpty) then
          some ((digitsVal intPart : ℚ) + (digitsVal frac : ℚ) / ((10 : ℚ) ^ frac.length))
        else none
    | _ => none
  match t with
  | '-' :: u => (core u).map (fun q => -q)
  | '+' :: u => core u
  | u => core u

/-- The decimal fragment of Python `int(s)`: optional sign then digits,
surrounding whitespace allowed. `none` models `int` raising `ValueError`. -/
def pyInt? (s : PyStr) : Option Int :=
  let t := pyStrip s
  let core : PyStr → Option Int := fun u =>
    if u.isEmpty ∨ ¬u.all Char.isDigit then none else some (digitsVal u : Int)
  match t with
  | '-' :: u => (core u).map (fun n => -n)
  | '+' :: u => core u
  | u => core u

/-- A pandas cell: missing (`None`/`NaN`), a string, an exact numeric value,
or an integer. -/
inductive Cell where
  | null : Cell
  | str : PyStr → Cell
  | num : ℚ → Cell
  | int : Int → Cell
deriving DecidableEq, Repr

/-- A pandas DataFrame, modelled column-oriented: an association list from
column names to columns of cells (pandas stores columns; all the embedded
transforms are column transforms). -/
abbrev Table := List (String × List Cell)

/-- Column of a table, `none` when the column name is absent. -/
def Table.getCol (t : Table) (c : String) : Option (List Cell) :=
  t.lookup c

/-- Column assignment `df[c] = v`: replace the column in place when the name
exists, append it at the end otherwise (pandas semantics). -/
def Table.setCol (t : Table) (c : String) (v : List Cell) : Table :=
  if (t.lookup c).isSome then
    t.map (fun p => if p.1 = c then (c, v) else p)
  else
    t ++ [(c, v)]

/-- `df.drop(columns=[c])`. -/
def Table.dropCol (t : Table) (c : String) : Table :=
  t.filter (fun p => p.1 ≠ c)

/-- Column count produced by `Series.str.split(..., expand=True)`: the
maximum number of split parts over the non-null rows; an all-null column
expands to a single all-`NaN` column. -/
def pandasExpandWidth (parts : List (Option (List PyStr))) : Nat :=
  if parts.all Option.isNone then 1
  else ((parts.filterMap id).map List.length).foldr max 0

/-- The literal `/10` anchor of the aggregate-rating format. -/
def anchor10 : PyStr := ['/', '1', '0']

/-- `Except.isOk` spelled out, to state that a transform raised. -/
def exOk : Except ε α → Bool
  | .ok _ => true
  | .error _ => false

/-- Effectful map in the `Except` monad (pandas `Series.apply`): apply `f`
to each element in order, stopping at the first raise. -/
def exMapM (f : α → Except String β) : List α → Except String (List β)
  | [] => .ok []
  | a :: t =>
    match f a with
    | .error e => .error e
    | .ok b =>
      match exMapM f t with
      | .error e => .error e
      | .ok bs => .ok (b :: bs)

namespace EtlFunctions

/-!  Embeddings of `src/recsys/etl/functions.py`. -/

/-- The suffix multipliers of `expand_short_form` (`short_forms` in the
source). -/
def short_forms : List (Char × ℚ) :=
  [('K', 1000), ('M', 1000000), ('B', 1000000000), ('T', 1000000000000)]

/-- `expand_short_form` from `src/recsys/etl/functions.py`.  `none` input
models Python `None` (returned unchanged); the empty string reaches
`string_num[-1]` and raises `IndexError`; otherwise the last character
selects a multiplier (or none) and `float` parses the rest, raising
`ValueError` on non-numeric text. -/
def expand_short_form : Option PyStr → Except String (Option ℚ)
  | none => .ok none
  | some s =>
    match s.getLast? with
    | none => .error "IndexError: string index out of range"
    | some last =>
      match (short_forms.lookup last) with
      | none =>
        match pyFloat? s with
        | some q => .ok (some q)
        | none => .error "ValueError: could not convert string to float"
      | some mult =>
        match pyFloat? s.dropLast with
        | some q => .ok (some (q * mult))
        | none => .error "ValueError: could not convert string to float"

/-- `split_aggregate_rating_col` from `src/recsys/etl/functions.py`.
Rows whose string lacks `/10` have `agg_rating` set to `None`
(`df_.loc[~contains] = None`); `.str.split('/10', expand=True)` then turns
them into all-`NaN` rows; the column assignment needs exactly two expanded
columns; `apply(expand_short_form)` on a `NaN` vote value reaches
`string_num[-1]` and raises `TypeError`; finally both columns are cast to
float and `agg_rating` is dropped. -/
def split_aggregate_rating_col (t : Table) : Except String Table :=
  match t.lookup "agg_rating" with
  | none => .error "No \"agg_rating\" column in input data"
  | some col =>
    match exMapM (fun cell =>
      match cell with
      | Cell.str s => .ok (if pyContains s anchor10 then some s else none)
      | _ => .error "TypeError: bad operand type for unary invert") col with
    | .error e => .error e
    | .ok masked =>
      let parts : List (Option (List PyStr)) :=
        masked.map (Option.map (fun s => pySplit s anchor10))
      if pandasExpandWidth parts ≠ 2 then
        .error "ValueError: Columns must be same length as key"
      else
        let votesStrs : List (Option PyStr) := parts.map (fun o => o.bind (fun l => l[1]?))
        let ratingStrs : List (Option PyStr) := parts.map (fun o => o.bind (fun l => l[0]?))
        match exMapM (fun o =>
          match o with
          | none => .error "TypeError: float object is not subscriptable"
          | some s => expand_short_form (some s)) votesStrs with
        | .error e => .error e
        | .ok votes =>
          match exMapM (fun o =>
            match o with
            | none => .ok Cell.null
            | some s =>
              match pyFloat? s with
              | some q => .ok (Cell.num q)
              | none => .error "ValueError: could not convert string to float") ratingStrs with
          | .error e => .error e
          | .ok ratings =>
            .ok ((((t.setCol "rating" ratings).setCol "total_votes"
                (votes.map (fun o => match o with
                  | some q => Cell.num q
                  | none => Cell.null)))).dropCol "agg_rating")

end EtlFunctions

/-- Truncation toward zero, the behaviour of a numpy float-to-int cast. -/
def ratTrunc (q : ℚ) : Int :=
  if 0 ≤ q then ⌊q⌋ else -⌊-q⌋

/-- Cast to `numpy.int32`: truncate toward zero and wrap modulo `2^32` into
`[-2^31, 2^31)`. -/
def toInt32 (q : ℚ) : Int :=
  ((ratTrunc q + 2 ^ 31) % 2 ^ 32) - 2 ^ 31

namespace CoreEtl

/-!  Embeddings of `src/recsys/core/etl.py` (the variant used by
`RawDetailsTransformer`, which does not null rows lacking the anchor and
casts to `float32`/`int32`; `float32` rounding is abstracted to exact
rationals). -/

/-- `split_aggregate_rating_col` from `src/recsys/core/etl.py`. -/
def split_aggregate_rating_col (t : Table) : Except String Table :=
  match t.lookup "agg_rating" with
  | none => .error "No \"agg_rating\" column in input data"
  | some col =>
    let parts : List (Option (List PyStr)) := col.map (fun cell =>
      match cell with
      | Cell.str s => some (pySplit s anchor10)
      | _ => none)
    if pandasExpandWidth parts ≠ 2 then
      .error "ValueError: Columns must be same length as key"
    else
      let votesStrs : List (Option PyStr) := parts.map (fun o => o.bind (fun l => l[1]?))
      let ratingStrs : List (Option PyStr) := parts.map (fun o => o.bind (fun l => l[0]?))
      match exMapM (fun o =>
        match o with
        | none => .error "TypeError: float object is not subscriptable"
        | some s => EtlFunctions.expand_short_form (some s)) votesStrs with
      | .error e => .error e
      | .ok votes =>
        match exMapM (fun o =>
          match o with
          | none => .ok Cell.null
          | some s =>
            match pyFloat? s with
            | some q => .ok (Cell.num q)
            | none => .error "ValueError: could not convert string to float") ratingStrs with
        | .error e => .error e
        | .ok ratings =>
          match exMapM (fun o =>
            match o with
            | some q => .ok (Cell.int (toInt32 q))
            | none => .error "TypeError: int() argument must not be NoneType") votes with
          | .error e => .error e
          | .ok votesInt =>
            .ok ((((t.setCol "rating" ratings).setCol "total_votes" votesInt)).dropCol "agg_rating")

end CoreEtl

namespace Pipeline

/-- `Pipeline.compose` from `src/recsys/core/pipeline.py`: thread the table
through the named steps in order; a raise propagates immediately, so no
later step runs. -/
def compose (pipeline : List (String × (Table → Except String Table)))
    (data : Table) : Except String Table :=
  pipeline.foldl (fun (result : Except String Table) step => result.bind step.2) (.ok data)

end Pipeline

/-- An error value is left untouched by the remaining pipeline steps. -/
theorem pipeline_foldl_error (steps : List (String × (Table → Except String Table))) (e : String) :
    steps.foldl (fun (result : Except String Table) step => result.bind step.2) (.error e)
      = .error e := by
  induction steps with
  | nil => rfl
  | cons s rest ih => simpa [Except.bind] using ih

/-- If `f` succeeds as `g` on every element, `exMapM f` is the map of `g`. -/
theorem exMapM_ok_of_forall {α β : Type} (f : α → Except String β) (g : α → β) :
    ∀ l : List α, (∀ a ∈ l, f a = .ok (g a)) → exMapM f l = .ok (l.map g) := by
  intro l
  induction l with
  | nil => intro _; rfl
  | cons a t ih =>
    intro h
    have ha := h a (by simp)
    have ht := ih (fun x hx => h x (by simp [hx]))
    simp [exMapM, ha, ht, Except.bind]

/-- If some element of `l` makes `f` raise, `exMapM f l` raises. -/
theorem exMapM_error_of_mem {α β : Type} (f : α → Except String β) {l : List α} {a : α} {e : String}
    (hmem : a ∈ l) (herr : f a = .error e) : ∃ e', exMapM f l = .error e' := by
  induction l with
  | nil => cases hmem
  | cons x t ih =>
    rcases List.mem_cons.mp hmem with h | h
    · subst h
      exact ⟨e, by simp [exMapM, herr, Except.bind]⟩
    · cases hfx : f x with
      | error e'' => exact ⟨e'', by simp [exMapM, hfx, Except.bind]⟩
      | ok b =>
        obtain ⟨e', he'⟩ := ih h
        exact ⟨e', by simp [exMapM, hfx, he', Except.bind]⟩

/-- A successful `exMapM` sends members to members. -/
theorem exMapM_ok_mem_of_mem {α β : Type} (f : α → Except String β) :
    ∀ {l : List α} {m : List β} {a : α} {b : β},
      exMapM f l = .ok m → a ∈ l → f a = .ok b → b ∈ m := by
  intro l
  induction l with
  | nil => intro m a b _ hmem; cases hmem
  | cons x t ih =>
    intro m a b hok hmem hfa
    cases hfx : f x with
    | error e => simp [exMapM, hfx, Except.bind] at hok
    | ok y =>
      cases hmt : exMapM f t with
      | error e => simp [exMapM, hfx, hmt, Except.bind] at hok
      | ok ys =>
        simp only [exMapM, hfx, hmt, Except.bind] at hok
        have hm : m = y :: ys := by
          cases hok
          rfl
        subst hm
        rcases List.mem_cons.mp hmem with h | h
        · subst h
          rw [hfa] at hfx
          cases hfx
          simp
        · exact List.mem_cons_of_mem _ (ih hmt h hfa)

/-- C3 counterexample: `expand_short_form` raises `IndexError` on the empty
string instead of returning null, and Python `float` accepts negative
numerals, so the result can be negative. -/
theorem expand_short_form_claim_false :
    EtlFunctions.expand_short_form (some []) = .error "IndexError: string index out of range" ∧
    EtlFunctions.expand_short_form (some ['-', '5']) = .ok (some (-5)) ∧
    ((-5 : ℚ) < 0) := by
  refine ⟨rfl, ?_, by norm_num⟩
  rfl

/-- C3 (amended): `expand_short_form` returns null exactly on null input;
the empty string raises `IndexError`; a non-empty input whose numeral part
parses yields the numeral times the suffix multiplier (`K`/`M`/`B`/`T`,
default 1), non-negative whenever the numeral is; any other non-empty
input raises `ValueError`. -/
theorem expand_short_form_spec :
    (EtlFunctions.expand_short_form none = .ok none) ∧
    (EtlFunctions.expand_short_form (some []) = .error "IndexError: string index out of range") ∧
    (∀ (s : PyStr) (c : Char) (q : ℚ), s.getLast? = some c →
      EtlFunctions.short_forms.lookup c = none → pyFloat? s = some q →
      EtlFunctions.expand_short_form (some s) = .ok (some q)) ∧
    (∀ (s : PyStr) (c : Char) (m q : ℚ), s.getLast? = some c →
      EtlFunctions.short_forms.lookup c = some m → pyFloat? s.dropLast = some q →
      EtlFunctions.expand_short_form (some s) = .ok (some (q * m)) ∧ (0 ≤ q → 0 ≤ q * m)) ∧
    (∀ (s : PyStr) (c : Char), s.getLast? = some c →
      EtlFunctions.short_forms.lookup c = none → pyFloat? s = none →
      EtlFunctions.expand_short_form (some s) = .error "ValueError: could not convert string to float") ∧
    (∀ (s : PyStr) (c : Char) (m : ℚ), s.getLast? = some c →
      EtlFunctions.short_forms.lookup c = some m → pyFloat? s.dropLast = none →
      EtlFunctions.expand_short_form (some s) = .error "ValueError: could not convert string to float") := by
  refine ⟨rfl, rfl, ?_, ?_, ?_, ?_⟩
  · intro s c q hlast hsf hq
    simp [EtlFunctions.expand_short_form, hlast, hsf, hq]
  · intro s c m q hlast hsf hq
    constructor
    · simp [EtlFunctions.expand_short_form, hlast, hsf, hq]
    · intro hq0
      have hm : 0 < m := by
        simp only [EtlFunctions.short_forms, List.lookup_cons, List.lookup_nil] at hsf
        repeat' split at hsf
        all_goals (try cases hsf)
        all_goals norm_num
      positivity
  · intro s c hlast hsf hq
    simp [EtlFunctions.expand_short_form, hlast, hsf, hq]
  · intro s c m hlast hsf hq
    simp [EtlFunctions.expand_short_form, hlast, hsf, hq]

/-- C3 witness: `expand_short_form "99M"` is 99 000 000, and "K" (suffix
with no numeral) raises `ValueError`. -/
theorem expand_short_form_spec_witness :
    EtlFunctions.expand_short_form (some ['9', '9', 'M']) = .ok (some 99000000) ∧
    EtlFunctions.expand_short_form (some ['K']) =
      .error "ValueError: could not convert string to float" := by
  have h := expand_short_form_spec.2.2.2.1 ['9', '9', 'M'] 'M' 1000000 99
    (by decide) (by decide) (by decide)
  have h2 := expand_short_form_spec.2.2.2.2.2 ['K'] 'K' 1000
    (by decide) (by decide) (by decide)
  refine ⟨?_, h2⟩
  calc EtlFunctions.expand_short_form (some ['9', '9', 'M'])
      = .ok (some (99 * 1000000)) := h.1
    _ = .ok (some 99000000) := by norm_num

/-- When the separator never occurs, the splitter returns the single piece
`acc.reverse ++ s`. -/
theorem pySplitGo_of_not_contains (sep : PyStr) :
    ∀ (s acc : PyStr), pyContains s sep = false →
      pySplitGo sep s acc 0 = [acc.reverse ++ s] := by
  intro s
  induction s with
  | nil => intro acc _; simp [pySplitGo]
  | cons c rest ih =>
    intro acc hno
    have hpre : sep.isPrefixOf (c :: rest) = false := by
      by_contra hp
      simp only [Bool.not_eq_false] at hp
      simp [pyContains, firstIdxOf?, hp] at hno
    have hrest : pyContains rest sep = false := by
      by_contra hr
      simp only [Bool.not_eq_false] at hr
      simp only [pyContains, firstIdxOf?, hpre] at hno
      simp only [pyContains] at hr
      rw [if_neg (by simp [hpre])] at hno
      cases hfi : firstIdxOf? rest sep with
      | none => simp [hfi] at hr
      | some i => simp [hfi] at hno
    rw [pySplitGo, if_neg (by simp [hpre]), ih (c :: acc) hrest]
    simp

/-- A string splitting into two pieces contains the separator. -/
theorem pyContains_of_pySplit_pair {s sep a b : PyStr}
    (h : pySplit s sep = [a, b]) : pyContains s sep = true := by
  by_contra hc
  simp only [Bool.not_eq_true] at hc
  have := pySplitGo_of_not_contains sep s [] hc
  rw [pySplit, this] at h
  cases h

/-- The expand width of a non-empty batch whose rows all split into exactly
two parts is two. -/
theorem pandasExpandWidth_const_two (parts : List (Option (List PyStr)))
    (hne : parts ≠ []) (h : ∀ o ∈ parts, ∃ l, o = some l ∧ l.length = 2) :
    pandasExpandWidth parts = 2 := by
  have hnotall : parts.all Option.isNone = false := by
    cases parts with
    | nil => exact absurd rfl hne
    | cons o t =>
      obtain ⟨l, hl, _⟩ := h o (by simp)
      simp [hl]
  have hlens : ∀ x ∈ (parts.filterMap id).map List.length, x = 2 := by
    intro x hx
    obtain ⟨l, hl, hx⟩ := List.mem_map.mp hx
    obtain ⟨o, ho, hol⟩ := List.mem_filterMap.mp hl
    obtain ⟨l', hl', hlen⟩ := h o ho
    subst hl'
    simp only [id] at hol
    cases hol
    omega
  have hlne : (parts.filterMap id).map List.length ≠ [] := by
    cases parts with
    | nil => exact absurd rfl hne
    | cons o t =>
      obtain ⟨l, hl, _⟩ := h o (by simp)
      subst hl
      simp [List.filterMap_cons]
  unfold pandasExpandWidth
  rw [hnotall]
  simp only [Bool.false_eq_true, if_false]
  revert hlens hlne
  generalize (parts.filterMap id).map List.length = L
  intro hlens hlne
  induction L with
  | nil => exact absurd rfl hlne
  | cons x xs ih =>
    cases xs with
    | nil => simp [hlens x (by simp)]
    | cons y ys =>
      have hx := hlens x (by simp)
      rw [List.foldr_cons, ih (fun z hz => hlens z (by simp [hz])) (by simp)]
      simp [hx]

/-- `exMapM` over a mapped list, when every image succeeds. -/
theorem exMapM_map_ok {α β γ : Type} (f : β → Except String γ) (h : α → β) (g : α → γ)
    (l : List α) (hall : ∀ a ∈ l, f (h a) = .ok (g a)) :
    exMapM f (l.map h) = .ok (l.map g) := by
  induction l with
  | nil => rfl
  | cons a t ih =>
    have ha := hall a (by simp)
    have ht := ih (fun x hx => hall x (by simp [hx]))
    simp [exMapM, ha, ht]

/-- C6: running the metadata normalization pipeline on a table lacking the
raw `agg_rating` column raises the declared missing-required-column error:
the first step raises immediately, `Pipeline.compose` propagates it, and no
continuation of later steps (any `rest`) changes the outcome. -/
theorem pipeline_on_normalized_raises
    (rest : List (String × (Table → Except String Table))) (t : Table)
    (h : t.lookup "agg_rating" = none) :
    Pipeline.compose
        (("split aggregate rating column", CoreEtl.split_aggregate_rating_col) :: rest) t
      = .error "No \"agg_rating\" column in input data" := by
  have h1 : CoreEtl.split_aggregate_rating_col t
      = .error "No \"agg_rating\" column in input data" := by
    unfold CoreEtl.split_aggregate_rating_col
    rw [h]
  unfold Pipeline.compose
  rw [List.foldl_cons]
  have h2 : (Except.ok t).bind
      (("split aggregate rating column", CoreEtl.split_aggregate_rating_col)).2
      = .error "No \"agg_rating\" column in input data" := by
    simp [Except.bind, h1]
  rw [h2]
  exact pipeline_foldl_error rest _

/-- C6 witness: an already-normalized two-column table fed back into the
pipeline (here with one later step still pending) raises. -/
theorem pipeline_on_normalized_raises_witness :
    Pipeline.compose
        (("split aggregate rating column", CoreEtl.split_aggregate_rating_col)
          :: [("identity step", fun t => .ok t)])
        [("rating", [Cell.num (89 / 10)]), ("total_votes", [Cell.int 99000000])]
      = .error "No \"agg_rating\" column in input data" :=
  pipeline_on_normalized_raises _ _ rfl


/-- C1 counterexample: a batch holding one well-formed row `"8.9/1099M"`
and one row `"nope"` without the `/10` anchor is not filtered down to the
good row: the whole transform raises (`expand_short_form` hits the `NaN`
vote value left by the nulled row), so no output table exists at all. -/
theorem split_aggregate_rating_drop_claim_false :
    EtlFunctions.split_aggregate_rating_col
        [("agg_rating", [Cell.str ("8.9/1099M".toList), Cell.str ("nope".toList)])]
      = .error "TypeError: float object is not subscriptable" := by
  rfl

/-- C1 (amended): rows lacking the `/10` anchor are not dropped; their
`agg_rating` is nulled in place and the transform then raises on the null
vote value (or on the column-shape mismatch), so a batch containing any
such row produces no output table at all. -/
theorem split_aggregate_rating_col_missing_anchor_raises
    (t : Table) (col : List Cell) (s : PyStr)
    (hcol : t.lookup "agg_rating" = some col)
    (hmem : Cell.str s ∈ col)
    (hno : pyContains s anchor10 = false) :
    exOk (EtlFunctions.split_aggregate_rating_col t) = false := by
  unfold EtlFunctions.split_aggregate_rating_col
  rw [hcol]
  dsimp only
  cases hmask : exMapM (fun cell =>
      match cell with
      | Cell.str s => .ok (if pyContains s anchor10 then some s else none)
      | _ => .error "TypeError: bad operand type for unary invert") col with
  | error e => rfl
  | ok masked =>
    dsimp only
    have hfs : (fun cell =>
        match cell with
        | Cell.str s => Except.ok (if pyContains s anchor10 then some s else none)
        | _ => Except.error "TypeError: bad operand type for unary invert") (Cell.str s)
        = .ok (none : Option PyStr) := by
      simp [hno]
    have hnone : (none : Option PyStr) ∈ masked :=
      exMapM_ok_mem_of_mem _ hmask hmem hfs
    have hpnone : (none : Option (List PyStr))
        ∈ masked.map (Option.map (fun s => pySplit s anchor10)) := by
      have := List.mem_map_of_mem (Option.map (fun s => pySplit s anchor10)) hnone
      simpa using this
    by_cases hw :
        pandasExpandWidth (masked.map (Option.map (fun s => pySplit s anchor10))) ≠ 2
    · rw [if_pos hw]
      rfl
    · rw [if_neg hw]
      have hvnone : (none : Option PyStr)
          ∈ (masked.map (Option.map (fun s => pySplit s anchor10))).map
              (fun o => o.bind (fun l => l[1]?)) := by
        have := List.mem_map_of_mem
          (fun (o : Option (List PyStr)) => o.bind (fun l => l[1]?)) hpnone
        simpa using this
      obtain ⟨e', he'⟩ := exMapM_error_of_mem (fun o =>
        match o with
        | none => .error "TypeError: float object is not subscriptable"
        | some s => EtlFunctions.expand_short_form (some s)) hvnone rfl
      rw [he']
      rfl

/-- C1 witness for the amended theorem, at the same concrete batch. -/
theorem split_aggregate_rating_col_missing_anchor_raises_witness :
    exOk (EtlFunctions.split_aggregate_rating_col
        [("agg_rating", [Cell.str ("8.9/1099M".toList), Cell.str ("nope".toList)])])
      = false :=
  split_aggregate_rating_col_missing_anchor_raises _ _ ("nope".toList) rfl
    (by simp) rfl

/-- One well-formed `agg_rating` row for the rating extractor: rating text
`r`, vote numeral `d`, magnitude suffix `c`, parsed rating `q`, parsed vote
numeral `n`, suffix multiplier `m`. -/
structure RatingRow where
  r : PyStr
  d : PyStr
  c : Char
  q : ℚ
  n : ℚ
  m : ℚ

/-- The raw text of the row: `<rating>/10<votes><suffix>` with no delimiter
after the anchor. -/
def RatingRow.text (x : RatingRow) : PyStr :=
  x.r ++ anchor10 ++ x.d ++ [x.c]

/-- Well-formedness of a rating row: the `/10` anchor occurs exactly once,
at its place in the format (so the literal-anchor split yields the two
expected pieces), and the numeric parts parse to the recorded values. -/
def RatingRow.wf (x : RatingRow) : Prop :=
  pySplit x.text anchor10 = [x.r, x.d ++ [x.c]] ∧
  pyFloat? x.r = some x.q ∧
  pyFloat? x.d = some x.n ∧
  EtlFunctions.short_forms.lookup x.c = some x.m

/-- C5: on a batch of `"R/10<votes><suffix>"` strings (no delimiter needed
between the `10` and the votes), the extractor splits on the literal `/10`
anchor and yields rating `R` and `total_votes = votes * multiplier`,
keeping every row and dropping the `agg_rating` column. -/
theorem split_aggregate_rating_col_literal_anchor
    (t : Table) (rows : List RatingRow) (hne : rows ≠ [])
    (hcol : t.lookup "agg_rating" = some (rows.map (fun x => Cell.str x.text)))
    (hwf : ∀ x ∈ rows, x.wf) :
    EtlFunctions.split_aggregate_rating_col t
      = .ok (((t.setCol "rating" (rows.map (fun x => Cell.num x.q))).setCol "total_votes"
          (rows.map (fun x => Cell.num (x.n * x.m)))).dropCol "agg_rating") := by
  unfold EtlFunctions.split_aggregate_rating_col
  rw [hcol]
  dsimp only
  have hcontains : ∀ x ∈ rows, pyContains (RatingRow.text x) anchor10 = true := by
    intro x hx
    exact pyContains_of_pySplit_pair (hwf x hx).1
  have hmask : exMapM (fun cell =>
      match cell with
      | Cell.str s => .ok (if pyContains s anchor10 then some s else none)
      | _ => .error "TypeError: bad operand type for unary invert")
      (rows.map (fun x => Cell.str x.text))
      = .ok (rows.map (fun x => some x.text)) := by
    apply exMapM_map_ok _ _ (fun x => some (RatingRow.text x))
    intro x hx
    simp [hcontains x hx]
  rw [hmask]
  dsimp only
  have hparts : (rows.map (fun x => some (RatingRow.text x))).map
      (Option.map (fun s => pySplit s anchor10))
      = rows.map (fun x => some [x.r, x.d ++ [x.c]]) := by
    rw [List.map_map]
    apply List.map_congr_left
    intro x hx
    simp [Function.comp, (hwf x hx).1]
  rw [hparts]
  have hwidth : pandasExpandWidth (rows.map (fun x => some [x.r, x.d ++ [x.c]])) = 2 := by
    apply pandasExpandWidth_const_two
    · simp [hne]
    · intro o ho
      obtain ⟨x, hx, rfl⟩ := List.mem_map.mp ho
      exact ⟨_, rfl, by simp⟩
  rw [if_neg (by simp [hwidth])]
  have hvotesStrs : (rows.map (fun x => some [x.r, x.d ++ [x.c]])).map
      (fun o => o.bind (fun l => l[1]?))
      = rows.map (fun x => some (x.d ++ [x.c])) := by
    rw [List.map_map]
    apply List.map_congr_left
    intro x hx
    simp [Function.comp]
  have hratingStrs : (rows.map (fun x => some [x.r, x.d ++ [x.c]])).map
      (fun o => o.bind (fun l => l[0]?))
      = rows.map (fun x => some x.r) := by
    rw [List.map_map]
    apply List.map_congr_left
    intro x hx
    simp [Function.comp]
  rw [hvotesStrs, hratingStrs]
  have hvotes : exMapM (fun o =>
      match o with
      | none => .error "TypeError: float object is not subscriptable"
      | some s => EtlFunctions.expand_short_form (some s))
      (rows.map (fun x => some (x.d ++ [x.c])))
      = .ok (rows.map (fun x => some (x.n * x.m))) := by
    apply exMapM_map_ok
    intro x hx
    obtain ⟨hsplit, hq, hn, hm⟩ := hwf x hx
    have hlast : (x.d ++ [x.c]).getLast? = some x.c := by simp
    have hdrop : (x.d ++ [x.c]).dropLast = x.d := by simp
    simp only [EtlFunctions.expand_short_form, hlast, hm, hdrop, hn]
  rw [hvotes]
  dsimp only
  have hratings : exMapM (fun o =>
      match o with
      | none => .ok Cell.null
      | some s =>
        match pyFloat? s with
        | some q => .ok (Cell.num q)
        | none => .error "ValueError: could not convert string to float")
      (rows.map (fun x => some x.r))
      = .ok (rows.map (fun x => Cell.num x.q)) := by
    apply exMapM_map_ok
    intro x hx
    simp only [(hwf x hx).2.1]
  rw [hratings]
  dsimp only
  have hfinal : (rows.map (fun x => some (x.n * x.m))).map
      (fun o => match o with
        | some q => Cell.num q
        | none => Cell.null)
      = rows.map (fun x => Cell.num (x.n * x.m)) := by
    rw [List.map_map]
    rfl
  rw [hfinal]

/-- C5 witness: `"8.9/1099M"` yields rating `8.9` and 99 000 000 votes. -/
theorem split_aggregate_rating_col_literal_anchor_witness :
    EtlFunctions.split_aggregate_rating_col
        [("agg_rating", [Cell.str ("8.9/1099M".toList)])]
      = .ok [("rating", [Cell.num (89 / 10)]), ("total_votes", [Cell.num 99000000])] := by
  have h89 : pyFloat? ("8.9".toList) = some (89 / 10 : ℚ) := by
    have h0 : pyFloat? ("8.9".toList)
        = some ((digitsVal ['8'] : ℚ) + (digitsVal ['9'] : ℚ) / 10 ^ 1) := rfl
    have hd8 : digitsVal ['8'] = 8 := by decide
    have hd9 : digitsVal ['9'] = 9 := by decide
    rw [h0, hd8, hd9]
    norm_num
  have h99 : pyFloat? ("99".toList) = some (99 : ℚ) := by
    have h0 : pyFloat? ("99".toList) = some ((digitsVal ['9', '9'] : ℚ)) := rfl
    have hd : digitsVal ['9', '9'] = 99 := by decide
    rw [h0, hd]
    norm_num
  have h := split_aggregate_rating_col_literal_anchor
    [("agg_rating", [Cell.str ("8.9/1099M".toList)])]
    [⟨"8.9".toList, "99".toList, 'M', 89 / 10, 99, 1000000⟩]
    (by simp) rfl
    (by
      intro x hx
      rw [List.mem_singleton] at hx
      subst hx
      exact ⟨rfl, h89, h99, rfl⟩)
  refine h.trans ?_
  have hval : (99 : ℚ) * 1000000 = 99000000 := by norm_num
  simp [Table.setCol, Table.dropCol, List.lookup, hval]

/-- `str.replace(',', '')`: remove every comma. -/
def stripCommas (s : PyStr) : PyStr :=
  s.filter (fun c => c ≠ ',')

/-- Worker for `digitRuns`; `acc` holds the digit run in progress,
reversed. -/
def digitRunsGo : PyStr → PyStr → List PyStr
  | [], acc => if acc.isEmpty then [] else [acc.reverse]
  | c :: rest, acc =>
    if c.isDigit then digitRunsGo rest (c :: acc)
    else if acc.isEmpty then digitRunsGo rest []
    else acc.reverse :: digitRunsGo rest []

/-- The maximal digit runs of a string, in order: the matches of
`re` pattern `(\d+)` as used by `Series.str.extractall`. -/
def digitRuns (s : PyStr) : List PyStr :=
  digitRunsGo s []

namespace EtlFunctions

/-- `split_helpfulness_col` from `src/recsys/etl/functions.py`: extract all
digit runs of the comma-stripped `helpfulness` strings, unstack them into
two integer columns `upvotes` and `total_votes`, and drop the source
column.  Pandas mechanics modelled: a non-string cell yields no matches;
a row with fewer matches than the widest row is `NaN`-padded and the
integer cast raises; a row with no matches is missing from `extractall`
and the assignment raises; the assignment needs exactly two columns. -/
def split_helpfulness_col (t : Table) : Except String Table :=
  match t.lookup "helpfulness" with
  | none => .error "No \"helpfulness\" column in input data"
  | some col =>
    let runs : List (List PyStr) := col.map (fun cell =>
      match cell with
      | Cell.str s => digitRuns (stripCommas s)
      | _ => [])
    let w := (runs.map List.length).foldr max 0
    if runs.any (fun r => r.length ≠ 0 ∧ r.length ≠ w) then
      .error "ValueError: cannot convert float NaN to integer"
    else if runs.any (fun r => r.length = 0) then
      .error "ValueError: Must have equal len keys and value"
    else if w ≠ 2 then
      .error "ValueError: Columns must be same length as key"
    else
      .ok (((t.setCol "upvotes"
          (runs.map (fun r => Cell.int (digitsVal (r.headD []) : Int)))).setCol "total_votes"
          (runs.map (fun r => Cell.int (digitsVal ((r.drop 1).headD []) : Int)))).dropCol
        "helpfulness")

end EtlFunctions

/-- A run of digit characters followed by the rest of the input: the run is
consumed whole into the accumulator. -/
theorem digitRunsGo_digits (d : PyStr) (hd : ∀ c ∈ d, c.isDigit = true) :
    ∀ rest acc, digitRunsGo (d ++ rest) acc = digitRunsGo rest (d.reverse ++ acc) := by
  induction d with
  | nil => intro rest acc; simp
  | cons c dt ih =>
    intro rest acc
    have hc := hd c (by simp)
    rw [List.cons_append, digitRunsGo, if_pos hc,
      ih (fun x hx => hd x (by simp [hx])) rest (c :: acc)]
    simp

/-- A non-empty digit run at the front, followed by the end of input,
produces that run. -/
theorem digitRuns_digits_nil (d : PyStr) (hne : d ≠ []) (hd : ∀ c ∈ d, c.isDigit = true) :
    digitRunsGo d [] = [d] := by
  have := digitRunsGo_digits d hd [] []
  rw [List.append_nil] at this
  rw [this, digitRunsGo]
  simp [hne]

/-- A non-empty digit run at the front, cut by a non-digit character,
produces that run and continues after the cut. -/
theorem digitRuns_digits_cons (d : PyStr) (hne : d ≠ []) (hd : ∀ c ∈ d, c.isDigit = true)
    (c : Char) (hc : c.isDigit = false) (r : PyStr) :
    digitRunsGo (d ++ c :: r) [] = d :: digitRunsGo r [] := by
  rw [digitRunsGo_digits d hd (c :: r) [], digitRunsGo, if_neg (by simp [hc])]
  simp [hne]

/-- Digit-free text contributes no runs. -/
theorem digitRunsGo_nondigits (m : PyStr) (hm : ∀ c ∈ m, c.isDigit = false) :
    ∀ rest, digitRunsGo (m ++ rest) [] = digitRunsGo rest [] := by
  induction m with
  | nil => intro rest; simp
  | cons c mt ih =>
    intro rest
    have hc := hm c (by simp)
    rw [List.cons_append, digitRunsGo, if_neg (by simp [hc])]
    simp only [List.isEmpty_nil, if_true]
    exact ih (fun x hx => hm x (by simp [hx])) rest

/-- The helpfulness string format `"N out of M found this helpful"`. -/
def helpfulnessText (n m : PyStr) : PyStr :=
  n ++ " out of ".toList ++ m ++ " found this helpful".toList

/-- A numeral with optional comma thousands separators: stripping the
commas leaves a non-empty run of digits. -/
def commaDigits (s : PyStr) : Prop :=
  (stripCommas s).all Char.isDigit = true ∧ stripCommas s ≠ []

/-- The digit runs of a comma-stripped helpfulness string are exactly the
two comma-stripped numerals. -/
theorem digitRuns_helpfulness (n m : PyStr) (hn : commaDigits n) (hm : commaDigits m) :
    digitRuns (stripCommas (helpfulnessText n m)) = [stripCommas n, stripCommas m] := by
  obtain ⟨hnd, hnne⟩ := hn
  obtain ⟨hmd, hmne⟩ := hm
  have hmid : stripCommas (" out of ".toList) = " out of ".toList := by decide
  have hpost : stripCommas (" found this helpful".toList) = " found this helpful".toList := by
    decide
  have hsplit : stripCommas (helpfulnessText n m)
      = stripCommas n ++ (" out of ".toList ++ (stripCommas m ++ " found this helpful".toList)) := by
    simp only [helpfulnessText, stripCommas, List.filter_append]
    rw [show List.filter (fun c => decide (c ≠ ',')) (" out of ".toList) = " out of ".toList
        from hmid,
      show List.filter (fun c => decide (c ≠ ',')) (" found this helpful".toList)
        = " found this helpful".toList from hpost]
    simp
  rw [hsplit]
  unfold digitRuns
  rw [show (" out of ".toList ++ (stripCommas m ++ " found this helpful".toList))
      = ' ' :: ("out of ".toList ++ (stripCommas m ++ " found this helpful".toList)) from rfl]
  rw [digitRuns_digits_cons (stripCommas n) hnne
    (fun c hc => List.all_eq_true.mp hnd c hc) ' ' (by decide) _]
  rw [digitRunsGo_nondigits ("out of ".toList) (by decide)]
  rw [show " found this helpful".toList = ' ' :: "found this helpful".toList from rfl]
  rw [digitRuns_digits_cons (stripCommas m) hmne
    (fun c hc => List.all_eq_true.mp hmd c hc) ' ' (by decide) _]
  rw [show digitRunsGo ("found this helpful".toList) [] = [] from rfl]

/-- The maximum of a non-empty list of twos is two. -/
theorem foldr_max_two (L : List Nat) (hne : L ≠ []) (h : ∀ x ∈ L, x = 2) :
    L.foldr max 0 = 2 := by
  induction L with
  | nil => exact absurd rfl hne
  | cons x xs ih =>
    cases xs with
    | nil => simp [h x (by simp)]
    | cons y ys =>
      rw [List.foldr_cons, ih (by simp) (fun z hz => h z (by simp [hz]))]
      simp [h x (by simp)]

/-- C9: on helpfulness strings `"N out of M found this helpful"` (with or
without comma thousands separators), `split_helpfulness_col` produces
integer columns `upvotes = N` and `total_votes = M` and removes the source
column; a table without a `helpfulness` column raises the declared
missing-column error. -/
theorem split_helpfulness_col_spec :
    (∀ t : Table, t.lookup "helpfulness" = none →
      EtlFunctions.split_helpfulness_col t
        = .error "No \"helpfulness\" column in input data") ∧
    (∀ (t : Table) (pairs : List (PyStr × PyStr)), pairs ≠ [] →
      t.lookup "helpfulness"
        = some (pairs.map (fun p => Cell.str (helpfulnessText p.1 p.2))) →
      (∀ p ∈ pairs, commaDigits p.1 ∧ commaDigits p.2) →
      EtlFunctions.split_helpfulness_col t
        = .ok (((t.setCol "upvotes"
            (pairs.map (fun p => Cell.int (digitsVal (stripCommas p.1) : Int)))).setCol
            "total_votes"
            (pairs.map (fun p => Cell.int (digitsVal (stripCommas p.2) : Int)))).dropCol
          "helpfulness")) := by
  constructor
  · intro t h
    unfold EtlFunctions.split_helpfulness_col
    rw [h]
  · intro t pairs hne hcol hwf
    unfold EtlFunctions.split_helpfulness_col
    rw [hcol]
    dsimp only
    have hruns : (pairs.map (fun p => Cell.str (helpfulnessText p.1 p.2))).map
        (fun cell => match cell with
          | Cell.str s => digitRuns (stripCommas s)
          | _ => ([] : List PyStr))
        = pairs.map (fun p => [stripCommas p.1, stripCommas p.2]) := by
      rw [List.map_map]
      apply List.map_congr_left
      intro p hp
      have := digitRuns_helpfulness p.1 p.2 (hwf p hp).1 (hwf p hp).2
      simpa [Function.comp] using this
    rw [hruns]
    have hw : ((pairs.map (fun p => [stripCommas p.1, stripCommas p.2])).map
        List.length).foldr max 0 = 2 := by
      apply foldr_max_two
      · simp [hne]
      · intro x hx
        obtain ⟨r, hr, rfl⟩ := List.mem_map.mp hx
        obtain ⟨p, hp, rfl⟩ := List.mem_map.mp hr
        simp
    rw [hw]
    rw [if_neg (by
      intro hcon
      rw [List.any_eq_true] at hcon
      obtain ⟨r, hr, hrp⟩ := hcon
      obtain ⟨p, hp, rfl⟩ := List.mem_map.mp hr
      simp at hrp)]
    rw [if_neg (by
      intro hcon
      rw [List.any_eq_true] at hcon
      obtain ⟨r, hr, hrp⟩ := hcon
      obtain ⟨p, hp, rfl⟩ := List.mem_map.mp hr
      simp at hrp)]
    rw [if_neg (by simp)]
    have hup : (pairs.map (fun p => [stripCommas p.1, stripCommas p.2])).map
        (fun r => Cell.int (digitsVal (r.headD []) : Int))
        = pairs.map (fun p => Cell.int (digitsVal (stripCommas p.1) : Int)) := by
      rw [List.map_map]
      rfl
    have htot : (pairs.map (fun p => [stripCommas p.1, stripCommas p.2])).map
        (fun r => Cell.int (digitsVal ((r.drop 1).headD []) : Int))
        = pairs.map (fun p => Cell.int (digitsVal (stripCommas p.2) : Int)) := by
      rw [List.map_map]
      rfl
    rw [hup, htot]

/-- C9 witness: two rows, with and without comma separators. -/
theorem split_helpfulness_col_spec_witness :
    EtlFunctions.split_helpfulness_col
        [("helpfulness",
          [Cell.str ("171 out of 185 found this helpful".toList),
           Cell.str ("1,710 out of 1,850 found this helpful".toList)])]
      = .ok [("upvotes", [Cell.int 171, Cell.int 1710]),
             ("total_votes", [Cell.int 185, Cell.int 1850])] := by
  have h := split_helpfulness_col_spec.2
    [("helpfulness",
      [Cell.str ("171 out of 185 found this helpful".toList),
       Cell.str ("1,710 out of 1,850 found this helpful".toList)])]
    [("171".toList, "185".toList), ("1,710".toList, "1,850".toList)]
    (by simp) rfl
    (by
      intro p hp
      rcases List.mem_cons.mp hp with h | h
      · subst h
        exact ⟨⟨by decide, by decide⟩, ⟨by decide, by decide⟩⟩
      · rw [List.mem_singleton] at h
        subst h
        exact ⟨⟨by decide, by decide⟩, ⟨by decide, by decide⟩⟩)
  exact h.trans (by rfl)

/-- First alternative of `alts` that is a non-empty prefix of `s`: the
Python `re` engine tries the alternatives of `A|B|...` in order at each
position. -/
def firstAltMatch (alts : List PyStr) (s : PyStr) : Option PyStr :=
  alts.find? (fun a => !a.isEmpty && a.isPrefixOf s)

/-- Worker for `reSplitAlt`; `skip` counts characters of the alternative
just matched that are still to be consumed. -/
def reSplitAltGo (alts : List PyStr) : PyStr → PyStr → Nat → List PyStr
  | [], acc, _ => [acc.reverse]
  | _ :: rest, acc, skip + 1 => reSplitAltGo alts rest acc skip
  | c :: rest, acc, 0 =>
    match firstAltMatch alts (c :: rest) with
    | some a => acc.reverse :: reSplitAltGo alts rest [] (a.length - 1)
    | none => reSplitAltGo alts rest (c :: acc) 0

/-- `re.split(pat, s)` for an alternation of non-empty literal
alternatives: split at each leftmost match, scanning left to right. -/
def reSplitAlt (alts : List PyStr) (s : PyStr) : List PyStr :=
  reSplitAltGo alts s [] 0

/-- The alternatives of the `'Runtime| |Sound|Color'` split pattern of
`extract_runtime`. -/
def runtime_split_alts : List PyStr :=
  ["Runtime".toList, " ".toList, "Sound".toList, "Color".toList]

namespace EtlFunctions

/-- `convert_runtime_to_minutes` from `src/recsys/etl/functions.py`:
`int(hours) * 60 + int(minutes)` with every exception (including a `NaN`
argument from pandas padding, modelled as `none`) caught into `None`. -/
def convert_runtime_to_minutes (hours minutes : Option PyStr) : Option Int :=
  match hours, minutes with
  | some h, some m =>
    match pyInt? h, pyInt? m with
    | some a, some b => some (a * 60 + b)
    | _, _ => none
  | _, _ => none

/-- Pandas cell of the expanded split frame at column `j` for one row,
after `.replace('', '0')`: `none` is the `NaN` padding. -/
def runtimeCellAt (o : Option (List PyStr)) (j : Nat) : Option PyStr :=
  o.bind (fun l => (l[j]?).map (fun p => if p.isEmpty then ['0'] else p))

/-- The `.str.split('Runtime| |Sound|Color', expand=True)` row step of
`extract_runtime`: a non-string cell (pandas `NaN`) expands to an
all-`NaN` row, modelled as `none`. -/
def splitTechspecs (cell : Cell) : Option (List PyStr) :=
  match cell with
  | Cell.str s => some (reSplitAlt runtime_split_alts s)
  | _ => none

/-- `extract_runtime` from `src/recsys/etl/functions.py`: split `techspecs`
on `'Runtime| |Sound|Color'`, coerce empty pieces to `'0'`, and apply
`convert_runtime_to_minutes(x[1], x[3])` row-wise.  Pandas mechanics
modelled: a non-string cell expands to an all-`NaN` row; when the widest
row splits into at most 3 pieces the row lambda's `x[3]` (or `x[1]`)
raises `KeyError` outside the guarded conversion; otherwise a missing or
unparsable piece yields a null `runtime_min` for that row only. -/
def extract_runtime (t : Table) : Except String Table :=
  match t.lookup "techspecs" with
  | none => .error "No \"techspecs\" column in input data"
  | some col =>
    let parts : List (Option (List PyStr)) := col.map splitTechspecs
    if pandasExpandWidth parts ≤ 3 then
      .error "KeyError"
    else
      .ok ((t.setCol "runtime_min" (parts.map (fun o =>
        match convert_runtime_to_minutes (runtimeCellAt o 1) (runtimeCellAt o 3) with
        | some v => Cell.int v
        | none => Cell.null))).dropCol "techspecs")

end EtlFunctions

/-- No alternative of the runtime pattern matches at a character other than
`R`, space, `S`, `C`. -/
theorem firstAltMatch_runtime_none (c : Char)
    (hc : c ≠ 'R' ∧ c ≠ ' ' ∧ c ≠ 'S' ∧ c ≠ 'C') (r : PyStr) :
    firstAltMatch runtime_split_alts (c :: r) = none := by
  obtain ⟨h1, h2, h3, h4⟩ := hc
  have e1 : ('R' == c) = false := by rw [beq_eq_false_iff_ne]; exact Ne.symm h1
  have e2 : (' ' == c) = false := by rw [beq_eq_false_iff_ne]; exact Ne.symm h2
  have e3 : ('S' == c) = false := by rw [beq_eq_false_iff_ne]; exact Ne.symm h3
  have e4 : ('C' == c) = false := by rw [beq_eq_false_iff_ne]; exact Ne.symm h4
  simp [firstAltMatch, runtime_split_alts, List.find?, List.isPrefixOf, e1, e2, e3, e4]

/-- Characters that start no alternative are consumed into the current
piece. -/
theorem reSplitAltGo_consume (d : PyStr)
    (hd : ∀ c ∈ d, c ≠ 'R' ∧ c ≠ ' ' ∧ c ≠ 'S' ∧ c ≠ 'C') :
    ∀ rest acc, reSplitAltGo runtime_split_alts (d ++ rest) acc 0
      = reSplitAltGo runtime_split_alts rest (d.reverse ++ acc) 0 := by
  induction d with
  | nil => intro rest acc; simp
  | cons c dt ih =>
    intro rest acc
    rw [List.cons_append, reSplitAltGo,
      firstAltMatch_runtime_none c (hd c (by simp)) (dt ++ rest),
      ih (fun x hx => hd x (by simp [hx])) rest (c :: acc)]
    simp

/-- A `skip` equal to the length of the remaining matched text consumes it
without touching the piece accumulator. -/
theorem reSplitAltGo_skip (alts : List PyStr) (u : PyStr) :
    ∀ rest acc, reSplitAltGo alts (u ++ rest) acc u.length
      = reSplitAltGo alts rest acc 0 := by
  induction u with
  | nil => intro rest acc; simp
  | cons c ut ih =>
    intro rest acc
    rw [List.cons_append, List.length_cons, reSplitAltGo, ih rest acc]

/-- A space cuts the current piece (the single-space alternative). -/
theorem reSplitAltGo_space (r acc : PyStr) :
    reSplitAltGo runtime_split_alts (' ' :: r) acc 0
      = acc.reverse :: reSplitAltGo runtime_split_alts r [] 0 := by
  rw [reSplitAltGo]
  have hm : firstAltMatch runtime_split_alts (' ' :: r) = some (" ".toList) := by
    simp [firstAltMatch, runtime_split_alts, List.find?, List.isPrefixOf]
  rw [hm]
  rfl

/-- The label `Runtime` at the front cuts the current piece and is
consumed whole. -/
theorem reSplitAltGo_runtime_label (X acc : PyStr) :
    reSplitAltGo runtime_split_alts ("Runtime".toList ++ X) acc 0
      = acc.reverse :: reSplitAltGo runtime_split_alts X [] 0 := by
  rw [show "Runtime".toList ++ X = 'R' :: ("untime".toList ++ X) from rfl, reSplitAltGo]
  have hm : firstAltMatch runtime_split_alts ('R' :: ("untime".toList ++ X))
      = some ("Runtime".toList) := by
    have hpre : ("Runtime".toList).isPrefixOf ('R' :: ("untime".toList ++ X)) = true := by
      rw [List.isPrefixOf_iff_prefix]
      exact List.prefix_append _ _
    simp [firstAltMatch, List.find?, runtime_split_alts, hpre]
  rw [hm]
  dsimp only
  have hskip : reSplitAltGo runtime_split_alts ("untime".toList ++ X) []
      (("Runtime".toList).length - 1)
      = reSplitAltGo runtime_split_alts X [] 0 := by
    rw [show ("Runtime".toList).length - 1 = ("untime".toList).length from rfl]
    exact reSplitAltGo_skip runtime_split_alts ("untime".toList) X []
  rw [hskip]

/-- A digit starts no alternative of the runtime pattern. -/
theorem runtime_digit_chars (c : Char) (hc : c.isDigit = true) :
    c ≠ 'R' ∧ c ≠ ' ' ∧ c ≠ 'S' ∧ c ≠ 'C' := by
  refine ⟨?_, ?_, ?_, ?_⟩ <;> (intro h; subst h; revert hc; decide)

/-- The splitter never returns an empty list of pieces. -/
theorem reSplitAltGo_ne_nil (alts : List PyStr) :
    ∀ (s acc : PyStr) (k : Nat), reSplitAltGo alts s acc k ≠ [] := by
  intro s
  induction s with
  | nil => intro acc k; simp [reSplitAltGo]
  | cons c st ih =>
    intro acc k
    cases k with
    | succ k' => rw [reSplitAltGo]; exact ih acc k'
    | zero =>
      rw [reSplitAltGo]
      cases hm : firstAltMatch alts (c :: st) with
      | some a => simp
      | none => simpa using ih (c :: acc) 0

/-- Splitting a well-formed techspecs string on the runtime labels yields
the empty piece, the hours, the literal `hours`, the minutes, and then the
pieces of the remainder. -/
theorem reSplitAlt_runtime_form (H M rest : PyStr)
    (hH : ∀ c ∈ H, c.isDigit = true) (hM : ∀ c ∈ M, c.isDigit = true) :
    reSplitAlt runtime_split_alts
        ("Runtime".toList ++ H ++ " hours ".toList ++ M ++ " minutes".toList ++ rest)
      = [] :: H :: "hours".toList :: M
          :: reSplitAltGo runtime_split_alts ("minutes".toList ++ rest) [] 0 := by
  unfold reSplitAlt
  rw [show "Runtime".toList ++ H ++ " hours ".toList ++ M ++ " minutes".toList ++ rest
    = "Runtime".toList ++ (H ++ (' ' :: ("hours".toList
        ++ (' ' :: (M ++ (' ' :: ("minutes".toList ++ rest))))))) by simp]
  rw [reSplitAltGo_runtime_label]
  rw [reSplitAltGo_consume H (fun c hc => runtime_digit_chars c (hH c hc))]
  rw [reSplitAltGo_space]
  rw [reSplitAltGo_consume ("hours".toList) (by decide)]
  rw [reSplitAltGo_space]
  rw [reSplitAltGo_consume M (fun c hc => runtime_digit_chars c (hM c hc))]
  rw [reSplitAltGo_space]
  simp

/-- A digit is not whitespace. -/
theorem digit_not_ws (c : Char) (h : c.isDigit = true) : c.isWhitespace = false := by
  cases hws : c.isWhitespace with
  | false => rfl
  | true =>
    exfalso
    have h' : ((c = ' ' ∨ c = '\t') ∨ c = '\r') ∨ c = '\n' := by
      simpa [Char.isWhitespace] using hws
    rcases h' with ((h' | h') | h') | h' <;> (subst h'; revert h; decide)

/-- Stripping whitespace from an all-digit string does nothing. -/
theorem pyStrip_digits (d : PyStr) (hd : ∀ c ∈ d, c.isDigit = true) :
    pyStrip d = d := by
  have hdrop : ∀ (l : PyStr), (∀ c ∈ l, c.isDigit = true) →
      l.dropWhile Char.isWhitespace = l := by
    intro l hl
    cases l with
    | nil => rfl
    | cons c l' =>
      rw [List.dropWhile_cons, if_neg (by simp [digit_not_ws c (hl c (by simp))])]
  unfold pyStrip
  rw [hdrop d hd, hdrop d.reverse (fun c hc => hd c (List.mem_reverse.mp hc)),
    List.reverse_reverse]

/-- `int()` on a non-empty all-digit string is its decimal value. -/
theorem pyInt?_digits (d : PyStr) (hne : d ≠ []) (hd : ∀ c ∈ d, c.isDigit = true) :
    pyInt? d = some (digitsVal d : Int) := by
  have hstrip : pyStrip d = d := pyStrip_digits d hd
  unfold pyInt?
  dsimp only
  rw [hstrip]
  have hcore : (if d.isEmpty ∨ ¬d.all Char.isDigit then none
      else some (digitsVal d : Int)) = some (digitsVal d : Int) := by
    rw [if_neg]
    push_neg
    exact ⟨by simpa using hne, by simpa using List.all_eq_true.mpr hd⟩
  cases d with
  | nil => exact absurd rfl hne
  | cons c d' =>
    have hc : c.isDigit = true := hd c (by simp)
    have hm : c ≠ '-' := by intro h; subst h; revert hc; decide
    have hp : c ≠ '+' := by intro h; subst h; revert hc; decide
    split
    · rename_i u heq
      exact absurd (List.head_eq_of_cons_eq heq) hm
    · rename_i u heq
      exact absurd (List.head_eq_of_cons_eq heq) hp
    · exact hcore

/-- `int()` after the `'' -> '0'` coercion of an all-digit (possibly empty)
piece is its decimal value. -/
theorem pyInt?_replaceEmpty (d : PyStr) (hd : ∀ c ∈ d, c.isDigit = true) :
    pyInt? (if d.isEmpty then ['0'] else d) = some (digitsVal d : Int) := by
  cases d with
  | nil =>
    show pyInt? ['0'] = some (digitsVal [] : Int)
    decide
  | cons c d' =>
    rw [if_neg (by simp)]
    exact pyInt?_digits (c :: d') (by simp) hd

/-- Any member bounds the folded maximum. -/
theorem le_foldr_max (x : Nat) (L : List Nat) (hx : x ∈ L) : x ≤ L.foldr max 0 := by
  induction L with
  | nil => cases hx
  | cons y ys ih =>
    rw [List.foldr_cons]
    rcases List.mem_cons.mp hx with h | h
    · subst h
      exact le_max_left _ _
    · exact le_trans (ih h) (le_max_right _ _)

/-- Any present row's part count bounds the expand width. -/
theorem pandasExpandWidth_ge (parts : List (Option (List PyStr))) (l : List PyStr)
    (h : some l ∈ parts) : l.length ≤ pandasExpandWidth parts := by
  unfold pandasExpandWidth
  rw [if_neg (by
    intro hall
    have := List.all_eq_true.mp hall _ h
    simp at this)]
  apply le_foldr_max
  apply List.mem_map_of_mem List.length
  rw [List.mem_filterMap]
  exact ⟨some l, h, rfl⟩

/-- The raw techspecs text `Runtime<H> hours <M> minutes<rest>`. -/
def runtimeText (H M rest : PyStr) : PyStr :=
  "Runtime".toList ++ H ++ " hours ".toList ++ M ++ " minutes".toList ++ rest

/-- A techspecs batch row for the runtime statement: either a well-formed
`Runtime<H> hours <M> minutes<rest>` row, or an arbitrary cell whose
per-row parse is expected to fail. -/
inductive RuntimeRow
  | good (H M rest : PyStr)
  | bad (c : Cell)

/-- The raw `techspecs` cell of a batch row. -/
def RuntimeRow.cell : RuntimeRow → Cell
  | .good H M rest => Cell.str (runtimeText H M rest)
  | .bad c => c

/-- The expected `runtime_min` cell: `H*60 + M` for a well-formed row,
null for a failing one. -/
def RuntimeRow.out : RuntimeRow → Cell
  | .good H M _ => Cell.int ((digitsVal H : Int) * 60 + (digitsVal M : Int))
  | .bad _ => Cell.null

/-- Well-formedness of a batch row: a good row's hour and minute fields
are digit strings; a bad row is one whose guarded per-row conversion
fails (`convert_runtime_to_minutes` catches the exception into `None`). -/
def RuntimeRow.wf : RuntimeRow → Prop
  | .good H M _ => (∀ c ∈ H, c.isDigit = true) ∧ (∀ c ∈ M, c.isDigit = true)
  | .bad c => EtlFunctions.convert_runtime_to_minutes
      (EtlFunctions.runtimeCellAt (EtlFunctions.splitTechspecs c) 1)
      (EtlFunctions.runtimeCellAt (EtlFunctions.splitTechspecs c) 3) = none

/-- C8 (amended): on a batch of `"Runtime<H> hours <M> minutes..."` rows,
`extract_runtime` splits on the fixed labels, coerces empty captured
pieces to `0`, computes `runtime_min = H*60 + M`, and drops `techspecs`;
and on a mixed batch of well-formed and failing rows in which some row
splits into more than three pieces, the transform never raises: each
well-formed row still gets its `H*60 + M` and each row whose guarded
per-row conversion fails gets a null `runtime_min`.  (Without such a
row, the positional `x[1]`/`x[3]` access raises `KeyError` — the
corrected corner of the claim.) -/
theorem extract_runtime_spec :
    (∀ (t : Table) (rows : List (PyStr × PyStr × PyStr)), rows ≠ [] →
      t.lookup "techspecs"
        = some (rows.map (fun x => Cell.str (runtimeText x.1 x.2.1 x.2.2))) →
      (∀ x ∈ rows, (∀ c ∈ x.1, c.isDigit = true) ∧ (∀ c ∈ x.2.1, c.isDigit = true)) →
      EtlFunctions.extract_runtime t
        = .ok ((t.setCol "runtime_min" (rows.map (fun x =>
            Cell.int ((digitsVal x.1 : Int) * 60 + (digitsVal x.2.1 : Int))))).dropCol
          "techspecs")) ∧
    (∀ (t : Table) (rows : List RuntimeRow),
      t.lookup "techspecs" = some (rows.map RuntimeRow.cell) →
      (∀ r ∈ rows, r.wf) →
      3 < pandasExpandWidth ((rows.map RuntimeRow.cell).map EtlFunctions.splitTechspecs) →
      EtlFunctions.extract_runtime t
        = .ok ((t.setCol "runtime_min" (rows.map RuntimeRow.out)).dropCol "techspecs")) := by
  constructor
  · intro t rows hne hcol hwf
    unfold EtlFunctions.extract_runtime
    rw [hcol]
    dsimp only
    have hparts : (rows.map (fun x => Cell.str (runtimeText x.1 x.2.1 x.2.2))).map
        EtlFunctions.splitTechspecs
        = rows.map (fun x => some ([] :: x.1 :: "hours".toList :: x.2.1 ::
            reSplitAltGo runtime_split_alts ("minutes".toList ++ x.2.2) [] 0)) := by
      rw [List.map_map]
      apply List.map_congr_left
      intro x hx
      have := reSplitAlt_runtime_form x.1 x.2.1 x.2.2 (hwf x hx).1 (hwf x hx).2
      simpa [Function.comp, runtimeText, EtlFunctions.splitTechspecs] using this
    rw [hparts]
    obtain ⟨x0, hx0⟩ : ∃ x, x ∈ rows := by
      cases rows with
      | nil => exact absurd rfl hne
      | cons a l => exact ⟨a, by simp⟩
    have hwge : 4 ≤ pandasExpandWidth (rows.map (fun x =>
        some ([] :: x.1 :: "hours".toList :: x.2.1 ::
          reSplitAltGo runtime_split_alts ("minutes".toList ++ x.2.2) [] 0))) := by
      have hmem := List.mem_map_of_mem (fun x =>
        some ([] :: x.1 :: "hours".toList :: x.2.1 ::
          reSplitAltGo runtime_split_alts ("minutes".toList ++ x.2.2) [] 0)) hx0
      have hle := pandasExpandWidth_ge _ _ hmem
      simp only [List.length_cons] at hle
      omega
    rw [if_neg (by omega)]
    have hcells : (rows.map (fun x => some ([] :: x.1 :: "hours".toList :: x.2.1 ::
          reSplitAltGo runtime_split_alts ("minutes".toList ++ x.2.2) [] 0))).map
        (fun o => match EtlFunctions.convert_runtime_to_minutes
            (EtlFunctions.runtimeCellAt o 1) (EtlFunctions.runtimeCellAt o 3) with
          | some v => Cell.int v
          | none => Cell.null)
        = rows.map (fun x =>
            Cell.int ((digitsVal x.1 : Int) * 60 + (digitsVal x.2.1 : Int))) := by
      rw [List.map_map]
      apply List.map_congr_left
      intro x hx
      have h1 : EtlFunctions.runtimeCellAt (some ([] :: x.1 :: "hours".toList :: x.2.1 ::
          reSplitAltGo runtime_split_alts ("minutes".toList ++ x.2.2) [] 0)) 1
          = some (if x.1.isEmpty then ['0'] else x.1) := rfl
      have hget3 : ([] :: x.1 :: "hours".toList :: x.2.1 ::
          reSplitAltGo runtime_split_alts ("minutes".toList ++ x.2.2) [] 0)[3]?
          = some x.2.1 := by simp
      have h3 : EtlFunctions.runtimeCellAt (some ([] :: x.1 :: "hours".toList :: x.2.1 ::
          reSplitAltGo runtime_split_alts ("minutes".toList ++ x.2.2) [] 0)) 3
          = some (if x.2.1.isEmpty then ['0'] else x.2.1) := by
        unfold EtlFunctions.runtimeCellAt
        rw [Option.some_bind, hget3]
        rfl
      have hre1 : pyInt? (if x.1.isEmpty then ['0'] else x.1)
          = some (digitsVal x.1 : Int) := pyInt?_replaceEmpty x.1 (hwf x hx).1
      have hre2 : pyInt? (if x.2.1.isEmpty then ['0'] else x.2.1)
          = some (digitsVal x.2.1 : Int) := pyInt?_replaceEmpty x.2.1 (hwf x hx).2
      have hconv : EtlFunctions.convert_runtime_to_minutes
          (some (if x.1.isEmpty then ['0'] else x.1))
          (some (if x.2.1.isEmpty then ['0'] else x.2.1))
          = some ((digitsVal x.1 : Int) * 60 + (digitsVal x.2.1 : Int)) := by
        show (match pyInt? (if x.1.isEmpty then ['0'] else x.1),
            pyInt? (if x.2.1.isEmpty then ['0'] else x.2.1) with
          | some a, some b => some (a * 60 + b)
          | _, _ => none)
          = some ((digitsVal x.1 : Int) * 60 + (digitsVal x.2.1 : Int))
        rw [hre1, hre2]
      simp only [Function.comp]
      rw [h1, h3, hconv]
    rw [hcells]
  · intro t rows hcol hwf hw
    unfold EtlFunctions.extract_runtime
    rw [hcol]
    dsimp only
    rw [if_neg (by omega)]
    have hcells : ((rows.map RuntimeRow.cell).map EtlFunctions.splitTechspecs).map
        (fun o => match EtlFunctions.convert_runtime_to_minutes
            (EtlFunctions.runtimeCellAt o 1) (EtlFunctions.runtimeCellAt o 3) with
          | some v => Cell.int v
          | none => Cell.null)
        = rows.map RuntimeRow.out := by
      rw [List.map_map, List.map_map]
      apply List.map_congr_left
      intro r hr
      have hwr := hwf r hr
      cases r with
      | bad c =>
        have hwr' : EtlFunctions.convert_runtime_to_minutes
            (EtlFunctions.runtimeCellAt (EtlFunctions.splitTechspecs c) 1)
            (EtlFunctions.runtimeCellAt (EtlFunctions.splitTechspecs c) 3) = none := hwr
        simp only [Function.comp, RuntimeRow.cell, RuntimeRow.out]
        rw [hwr']
      | good H M rest =>
        obtain ⟨hH, hM⟩ : (∀ ch ∈ H, ch.isDigit = true) ∧ (∀ ch ∈ M, ch.isDigit = true) := hwr
        have hsplit : EtlFunctions.splitTechspecs (RuntimeRow.cell (RuntimeRow.good H M rest))
            = some ([] :: H :: "hours".toList :: M ::
                reSplitAltGo runtime_split_alts ("minutes".toList ++ rest) [] 0) := by
          have := reSplitAlt_runtime_form H M rest hH hM
          simpa [RuntimeRow.cell, runtimeText, EtlFunctions.splitTechspecs] using this
        have h1 : EtlFunctions.runtimeCellAt (some ([] :: H :: "hours".toList :: M ::
            reSplitAltGo runtime_split_alts ("minutes".toList ++ rest) [] 0)) 1
            = some (if H.isEmpty then ['0'] else H) := rfl
        have hget3 : ([] :: H :: "hours".toList :: M ::
            reSplitAltGo runtime_split_alts ("minutes".toList ++ rest) [] 0)[3]?
            = some M := by simp
        have h3 : EtlFunctions.runtimeCellAt (some ([] :: H :: "hours".toList :: M ::
            reSplitAltGo runtime_split_alts ("minutes".toList ++ rest) [] 0)) 3
            = some (if M.isEmpty then ['0'] else M) := by
          unfold EtlFunctions.runtimeCellAt
          rw [Option.some_bind, hget3]
          rfl
        have hre1 : pyInt? (if H.isEmpty then ['0'] else H)
            = some (digitsVal H : Int) := pyInt?_replaceEmpty H hH
        have hre2 : pyInt? (if M.isEmpty then ['0'] else M)
            = some (digitsVal M : Int) := pyInt?_replaceEmpty M hM
        have hconv : EtlFunctions.convert_runtime_to_minutes
            (some (if H.isEmpty then ['0'] else H))
            (some (if M.isEmpty then ['0'] else M))
            = some ((digitsVal H : Int) * 60 + (digitsVal M : Int)) := by
          show (match pyInt? (if H.isEmpty then ['0'] else H),
              pyInt? (if M.isEmpty then ['0'] else M) with
            | some a, some b => some (a * 60 + b)
            | _, _ => none)
            = some ((digitsVal H : Int) * 60 + (digitsVal M : Int))
          rw [hre1, hre2]
        simp only [Function.comp]
        rw [hsplit, h1, h3, hconv]
        rfl
    rw [hcells]

/-- C8 counterexample: a batch whose only row has no label at all does not
get a null runtime; the positional `x[1]` access raises an uncaught
`KeyError` and the whole transform fails. -/
theorem extract_runtime_claim_false :
    EtlFunctions.extract_runtime [("techspecs", [Cell.str ("x".toList)])]
      = .error "KeyError" := by
  rfl

/-- C8 witness: the spec example gives 152 minutes; in a mixed batch with
a `NaN` techspecs row the example row still gets 152 and the failing row
gets a null. -/
theorem extract_runtime_spec_witness :
    EtlFunctions.extract_runtime
        [("techspecs", [Cell.str ("Runtime2 hours 32 minutesSound mixDolby DigitalSDDSDTSAspect ratio2.39 : 1".toList)])]
      = .ok [("runtime_min", [Cell.int 152])] ∧
    EtlFunctions.extract_runtime
        [("techspecs", [Cell.str ("Runtime2 hours 32 minutesSound mixDolby DigitalSDDSDTSAspect ratio2.39 : 1".toList), Cell.null])]
      = .ok [("runtime_min", [Cell.int 152, Cell.null])] := by
  have h := extract_runtime_spec.1
    [("techspecs", [Cell.str ("Runtime2 hours 32 minutesSound mixDolby DigitalSDDSDTSAspect ratio2.39 : 1".toList)])]
    [("2".toList, "32".toList,
      "Sound mixDolby DigitalSDDSDTSAspect ratio2.39 : 1".toList)]
    (by simp) rfl
    (by
      intro x hx
      rw [List.mem_singleton] at hx
      subst hx
      exact ⟨by decide, by decide⟩)
  have h2 := extract_runtime_spec.2
    [("techspecs", [Cell.str ("Runtime2 hours 32 minutesSound mixDolby DigitalSDDSDTSAspect ratio2.39 : 1".toList), Cell.null])]
    [RuntimeRow.good "2".toList "32".toList
      "Sound mixDolby DigitalSDDSDTSAspect ratio2.39 : 1".toList, RuntimeRow.bad Cell.null]
    rfl
    (by
      intro r hr
      rcases List.mem_cons.mp hr with h | h
      · subst h
        exact ⟨by decide, by decide⟩
      · rw [List.mem_singleton] at h
        subst h
        exact rfl)
    (by decide)
  exact ⟨h.trans (by rfl), h2.trans (by rfl)⟩

namespace EtlFunctions

/-- The loop of `extract_substrings_after_anchors` over the present
anchors: each anchor's section starts just after the first occurrence of
its own label (`s.find`) and, except for the last anchor, ends at the last
occurrence of the next present anchor's label (`s.rfind`); the last
present anchor's section runs to end of string.  The `getD 0` defaults are
never taken: every anchor in the list occurs in `s`. -/
def anchorSections (s : PyStr) : List PyStr → List (PyStr × Option PyStr)
  | [] => []
  | [a] => [(a, some (s.drop ((firstIdxOf? s a).getD 0 + a.length)))]
  | a :: b :: rest =>
    (a, some (pySlice s ((firstIdxOf? s a).getD 0 + a.length) ((lastIdxOf? s b).getD 0)))
      :: anchorSections s (b :: rest)

/-- `extract_substrings_after_anchors` from `src/recsys/etl/functions.py`:
the result dict holds the present anchors (in their original relative
order) with their sections, then the absent anchors mapped to `None`
(`dict.fromkeys`), modelled as an association list. -/
def extract_substrings_after_anchors (s : PyStr) (anchors : List PyStr) :
    List (PyStr × Option PyStr) :=
  let use_anchors := anchors.filter (fun a => pyContains s a)
  let empty_anchors := anchors.filter (fun a => !pyContains s a)
  anchorSections s use_anchors ++ empty_anchors.map (fun a => (a, none))

end EtlFunctions

/-- The keys of the sections list are the anchors themselves. -/
theorem anchorSections_keys (s : PyStr) :
    ∀ l : List PyStr, (EtlFunctions.anchorSections s l).map Prod.fst = l := by
  intro l
  induction l with
  | nil => rfl
  | cons a tl ih =>
    cases tl with
    | nil => rfl
    | cons b rest =>
      rw [EtlFunctions.anchorSections, List.map_cons, ih]

/-- Membership in the keys makes an association-list lookup succeed. -/
theorem lookup_isSome_of_mem_keys {α β : Type} [BEq α] [LawfulBEq α]
    (l : List (α × β)) (a : α) (h : a ∈ l.map Prod.fst) : (l.lookup a).isSome := by
  induction l with
  | nil => cases h
  | cons p tl ih =>
    rw [List.lookup_cons]
    rcases List.mem_cons.mp h with h' | h'
    · rw [show (a == p.1) = true by simp [h']]
      rfl
    · cases hk : (a == p.1) with
      | true => rfl
      | false => exact ih h'

/-- Absence from the keys makes an association-list lookup fail. -/
theorem lookup_eq_none_of_not_mem_keys {α β : Type} [BEq α] [LawfulBEq α]
    (l : List (α × β)) (a : α) (h : a ∉ l.map Prod.fst) : l.lookup a = none := by
  induction l with
  | nil => rfl
  | cons p tl ih =>
    rw [List.lookup_cons]
    cases hk : (a == p.1) with
    | true => exact absurd (by simp [beq_iff_eq.mp hk]) h
    | false => exact ih (fun hm => h (by simp [hm]))

/-- Lookup distributes over append, left side first. -/
theorem lookup_append_left {α β : Type} [BEq α] [LawfulBEq α]
    (l₁ l₂ : List (α × β)) (a : α) (h : (l₁.lookup a).isSome) :
    (l₁ ++ l₂).lookup a = l₁.lookup a := by
  induction l₁ with
  | nil => simp at h
  | cons p tl ih =>
    rw [List.cons_append, List.lookup_cons, List.lookup_cons]
    rw [List.lookup_cons] at h
    cases hk : (a == p.1) with
    | true => rfl
    | false =>
      rw [hk] at h
      exact ih h

/-- Lookup distributes over append, falling through to the right side. -/
theorem lookup_append_right {α β : Type} [BEq α] [LawfulBEq α]
    (l₁ l₂ : List (α × β)) (a : α) (h : l₁.lookup a = none) :
    (l₁ ++ l₂).lookup a = l₂.lookup a := by
  induction l₁ with
  | nil => rfl
  | cons p tl ih =>
    rw [List.cons_append, List.lookup_cons]
    rw [List.lookup_cons] at h
    cases hk : (a == p.1) with
    | true => rw [hk] at h; simp at h
    | false =>
      rw [hk] at h
      exact ih h

/-- Looking up any member of a `fromkeys`-style null map yields null. -/
theorem lookup_map_none {α β : Type} [BEq α] [LawfulBEq α] (l : List α) (a : α)
    (h : a ∈ l) : (l.map (fun x => (x, (none : Option β)))).lookup a = some none := by
  induction l with
  | nil => cases h
  | cons x tl ih =>
    rw [List.map_cons, List.lookup_cons]
    rcases List.mem_cons.mp h with h' | h'
    · rw [show (a == (x, (none : Option β)).1) = true by simp [h']]
    · cases hk : (a == (x, (none : Option β)).1) with
      | true => rfl
      | false => exact ih h'

/-- In a duplicate-free present-anchor list, each anchor followed by a next
anchor maps to the slice from just after its first occurrence to the last
occurrence of the next anchor. -/
theorem anchorSections_lookup_pair (s : PyStr) :
    ∀ (use : List PyStr), use.Nodup →
      ∀ p ∈ use.zip use.tail,
        (EtlFunctions.anchorSections s use).lookup p.1
          = some (some (pySlice s ((firstIdxOf? s p.1).getD 0 + p.1.length)
              ((lastIdxOf? s p.2).getD 0))) := by
  intro use
  induction use with
  | nil => intro _ p hp; cases hp
  | cons a tl ih =>
    intro hnd p hp
    cases tl with
    | nil => cases hp
    | cons b rest =>
      rw [EtlFunctions.anchorSections]
      rcases List.mem_cons.mp hp with h | h
      · subst h
        rw [List.lookup_cons, show (a == a) = true by simp]
      · have hp1 : p.1 ∈ (b :: rest) := (List.of_mem_zip h).1
        have hne : p.1 ≠ a := by
          intro hcon
          subst hcon
          exact (List.nodup_cons.mp hnd).1 hp1
        rw [List.lookup_cons, show (p.1 == a) = false by simpa using hne]
        exact ih (List.nodup_cons.mp hnd).2 p h

/-- In a duplicate-free present-anchor list, the last anchor maps to the
suffix of the string after its own first occurrence. -/
theorem anchorSections_lookup_last (s : PyStr) :
    ∀ (use : List PyStr), use.Nodup →
      ∀ a, use.getLast? = some a →
        (EtlFunctions.anchorSections s use).lookup a
          = some (some (s.drop ((firstIdxOf? s a).getD 0 + a.length))) := by
  intro use
  induction use with
  | nil => intro _ a ha; cases ha
  | cons x tl ih =>
    intro hnd a ha
    cases tl with
    | nil =>
      rw [List.getLast?_singleton] at ha
      cases ha
      rw [EtlFunctions.anchorSections, List.lookup_cons, show (x == x) = true by simp]
    | cons b rest =>
      have hlast : (b :: rest).getLast? = some a := by
        rw [List.getLast?_cons_cons] at ha
        exact ha
      have hmem : a ∈ b :: rest := by
        have h1 : a ∈ (b :: rest).getLast? := by rw [Option.mem_def]; exact hlast
        obtain ⟨hne', heq⟩ := List.mem_getLast?_eq_getLast h1
        rw [heq]
        exact List.getLast_mem hne'
      have hne : a ≠ x := by
        intro hcon
        subst hcon
        exact (List.nodup_cons.mp hnd).1 hmem
      rw [EtlFunctions.anchorSections, List.lookup_cons,
        show (a == x) = false by simpa using hne]
      exact ih (List.nodup_cons.mp hnd).2 a hlast

/-- C2: for every string and duplicate-free ordered anchor list, every
anchor appears as a key of the result; an anchor absent from the string
maps to null; each present anchor except the last maps to the substring
starting just after the first occurrence of its own label and ending at
the last occurrence (`rfind`) of the next present anchor's label; the last
present anchor maps to the substring running to end of string. -/
theorem extract_substrings_after_anchors_spec (s : PyStr) (anchors : List PyStr)
    (hnd : anchors.Nodup) :
    (∀ a ∈ anchors,
      ((EtlFunctions.extract_substrings_after_anchors s anchors).lookup a).isSome) ∧
    (∀ a ∈ anchors, pyContains s a = false →
      (EtlFunctions.extract_substrings_after_anchors s anchors).lookup a = some none) ∧
    (∀ p ∈ (anchors.filter (fun a => pyContains s a)).zip
        (anchors.filter (fun a => pyContains s a)).tail,
      (EtlFunctions.extract_substrings_after_anchors s anchors).lookup p.1
        = some (some (pySlice s ((firstIdxOf? s p.1).getD 0 + p.1.length)
            ((lastIdxOf? s p.2).getD 0)))) ∧
    (∀ a, (anchors.filter (fun a => pyContains s a)).getLast? = some a →
      (EtlFunctions.extract_substrings_after_anchors s anchors).lookup a
        = some (some (s.drop ((firstIdxOf? s a).getD 0 + a.length)))) := by
  have hre : EtlFunctions.extract_substrings_after_anchors s anchors
      = EtlFunctions.anchorSections s (anchors.filter (fun a => pyContains s a))
        ++ (anchors.filter (fun a => !pyContains s a)).map
            (fun a => (a, (none : Option PyStr))) := rfl
  have hkeys := anchorSections_keys s (anchors.filter (fun a => pyContains s a))
  have hu : (anchors.filter (fun a => pyContains s a)).Nodup := hnd.filter _
  have habsent : ∀ a ∈ anchors, pyContains s a = false →
      (EtlFunctions.extract_substrings_after_anchors s anchors).lookup a = some none := by
    intro a ha hc
    rw [hre]
    rw [lookup_append_right _ _ _ (lookup_eq_none_of_not_mem_keys _ _ (by
      rw [hkeys]
      intro hmem
      rw [List.mem_filter] at hmem
      rw [hmem.2] at hc
      cases hc))]
    exact lookup_map_none _ _ (by
      rw [List.mem_filter]
      exact ⟨ha, by simp [hc]⟩)
  have hpresent : ∀ a ∈ anchors.filter (fun a => pyContains s a),
      (EtlFunctions.extract_substrings_after_anchors s anchors).lookup a
        = (EtlFunctions.anchorSections s
            (anchors.filter (fun a => pyContains s a))).lookup a := by
    intro a ha
    rw [hre]
    exact lookup_append_left _ _ _
      (lookup_isSome_of_mem_keys _ _ (by rw [hkeys]; exact ha))
  refine ⟨?_, habsent, ?_, ?_⟩
  · intro a ha
    cases hc : pyContains s a with
    | false => rw [habsent a ha hc]; rfl
    | true =>
      rw [hpresent a (by rw [List.mem_filter]; exact ⟨ha, hc⟩)]
      exact lookup_isSome_of_mem_keys _ _ (by
        rw [hkeys, List.mem_filter]
        exact ⟨ha, hc⟩)
  · intro p hp
    have hp1 : p.1 ∈ anchors.filter (fun a => pyContains s a) := (List.of_mem_zip hp).1
    rw [hpresent p.1 hp1]
    exact anchorSections_lookup_pair s _ hu p hp
  · intro a ha
    have hmem : a ∈ anchors.filter (fun a => pyContains s a) := by
      have h1 : a ∈ (anchors.filter (fun a => pyContains s a)).getLast? := by
        rw [Option.mem_def]
        exact ha
      obtain ⟨hne', heq⟩ := List.mem_getLast?_eq_getLast h1
      rw [heq]
      exact List.getLast_mem hne'
    rw [hpresent a hmem]
    exact anchorSections_lookup_last s _ hu a ha

/-- C2 witness: with two of three anchors present, each present anchor
captures exactly up to the next anchor's label, and the absent anchor maps
to null. -/
theorem extract_substrings_after_anchors_spec_witness :
    ((EtlFunctions.extract_substrings_after_anchors
        ("anchor1 some string anchor2 another string".toList)
        ["anchor1".toList, "anchor2".toList, "anchor3".toList]).lookup
      ("anchor1".toList) = some (some (" some string ".toList))) ∧
    ((EtlFunctions.extract_substrings_after_anchors
        ("anchor1 some string anchor2 another string".toList)
        ["anchor1".toList, "anchor2".toList, "anchor3".toList]).lookup
      ("anchor2".toList) = some (some (" another string".toList))) ∧
    ((EtlFunctions.extract_substrings_after_anchors
        ("anchor1 some string anchor2 another string".toList)
        ["anchor1".toList, "anchor2".toList, "anchor3".toList]).lookup
      ("anchor3".toList) = some none) := by
  have h := extract_substrings_after_anchors_spec
    ("anchor1 some string anchor2 another string".toList)
    ["anchor1".toList, "anchor2".toList, "anchor3".toList]
    (by decide)
  refine ⟨?_, ?_, ?_⟩
  · exact (h.2.2.1 ("anchor1".toList, "anchor2".toList) (by decide)).trans (by decide)
  · exact (h.2.2.2 ("anchor2".toList) (by decide)).trans (by decide)
  · exact h.2.1 ("anchor3".toList) (by decide) (by decide)

/-- ASCII capital letter, the `[A-Z]` class. -/
def isCapital (c : Char) : Bool :=
  'A' ≤ c && c ≤ 'Z'

/-- Worker for `capitalTokens`; `acc` holds the token in progress,
reversed (empty before the first capital letter). -/
def capitalTokensGo : PyStr → PyStr → List PyStr
  | [], acc => if acc.isEmpty then [] else [acc.reverse]
  | c :: rest, acc =>
    if isCapital c then
      if acc.isEmpty then capitalTokensGo rest [c]
      else acc.reverse :: capitalTokensGo rest [c]
    else
      if acc.isEmpty then capitalTokensGo rest []
      else capitalTokensGo rest (c :: acc)

/-- `re.findall('[A-Z][^A-Z]*', x)`: maximal runs starting at a capital
letter; text before the first capital is skipped. -/
def capitalTokens (s : PyStr) : List PyStr :=
  capitalTokensGo s []

namespace EtlFunctions

/-- The entity-gluing loop of `split_with_capital_letter`: strip each
token, glue it onto the entity in progress, and close the entity when the
raw token does not end with a space.  Tokens are never empty (each starts
with its capital letter), so the `getLastD` default is never taken — in
Python `token[-1]` likewise cannot raise here. -/
def buildEntities : List PyStr → PyStr → List PyStr
  | [], _ => []
  | t :: ts, entity =>
    let stoken := pyStrip t
    let entity' := if entity.isEmpty then stoken else entity ++ ' ' :: stoken
    if t.getLastD ' ' ≠ ' ' then entity' :: buildEntities ts []
    else buildEntities ts entity'

/-- `split_with_capital_letter` from `src/recsys/etl/functions.py`:
tokenize on capital letters and glue tokens ending in a space to the next
one.  `re.findall` raises `TypeError` on a null (non-string) argument and
the blanket `except` turns that into `[]`. -/
def split_with_capital_letter : Option PyStr → List PyStr
  | none => []
  | some x => buildEntities (capitalTokens x) []

end EtlFunctions

/-- Dropping a prefix cannot erase an element the predicate keeps. -/
theorem dropWhile_ne_nil_of_mem {p : Char → Bool} (l : PyStr) (x : Char)
    (hx : x ∈ l) (hpx : p x = false) : l.dropWhile p ≠ [] := by
  induction l with
  | nil => cases hx
  | cons c t ih =>
    rw [List.dropWhile_cons]
    cases hc : p c with
    | false => simp
    | true =>
      simp only [if_pos rfl]
      rcases List.mem_cons.mp hx with h | h
      · subst h
        rw [hc] at hpx
        cases hpx
      · exact ih h

/-- A capital letter is not whitespace. -/
theorem capital_not_ws (c : Char) (h : isCapital c = true) : c.isWhitespace = false := by
  cases hws : c.isWhitespace with
  | false => rfl
  | true =>
    exfalso
    have h' : ((c = ' ' ∨ c = '\t') ∨ c = '\r') ∨ c = '\n' := by
      simpa [Char.isWhitespace] using hws
    rcases h' with ((h' | h') | h') | h' <;> (subst h'; revert h; decide)

/-- Stripping a token that starts with a capital letter leaves it
non-empty. -/
theorem pyStrip_ne_nil_of_head_cap (t : PyStr) (c : Char)
    (hh : t.head? = some c) (hc : isCapital c = true) : pyStrip t ≠ [] := by
  cases t with
  | nil => cases hh
  | cons c0 rest =>
    have hc0 : c0 = c := by
      simpa using hh
    subst hc0
    unfold pyStrip
    rw [List.dropWhile_cons, if_neg (by simp [capital_not_ws c0 hc])]
    intro hcon
    rw [List.reverse_eq_nil_iff] at hcon
    exact dropWhile_ne_nil_of_mem _ c0 (by simp) (capital_not_ws c0 hc) hcon

/-- Every token produced by the capital tokenizer starts with a capital
letter. -/
theorem capitalTokensGo_head_cap :
    ∀ (s acc : PyStr),
      (acc = [] ∨ ∃ c, acc.getLast? = some c ∧ isCapital c = true) →
      ∀ t ∈ capitalTokensGo s acc, ∃ c, t.head? = some c ∧ isCapital c = true := by
  intro s
  induction s with
  | nil =>
    intro acc hinv t ht
    rw [capitalTokensGo] at ht
    rcases hinv with h | ⟨c, hlast, hcap⟩
    · subst h
      simp at ht
    · have hne : acc.isEmpty = false := by
        cases acc with
        | nil => cases hlast
        | cons _ _ => rfl
      rw [hne] at ht
      simp only [Bool.false_eq_true, if_false, List.mem_singleton] at ht
      subst ht
      exact ⟨c, by rw [List.head?_reverse]; exact hlast, hcap⟩
  | cons c0 rest ih =>
    intro acc hinv t ht
    rw [capitalTokensGo] at ht
    by_cases hcap : isCapital c0 = true
    · rw [if_pos hcap] at ht
      rcases hinv with h | ⟨c, hlast, hc⟩
      · subst h
        simp only [List.isEmpty_nil, if_true] at ht
        exact ih [c0] (Or.inr ⟨c0, rfl, hcap⟩) t ht
      · have hne : acc.isEmpty = false := by
          cases acc with
          | nil => cases hlast
          | cons _ _ => rfl
        rw [hne] at ht
        simp only [Bool.false_eq_true, if_false, List.mem_cons] at ht
        rcases ht with ht | ht
        · subst ht
          exact ⟨c, by rw [List.head?_reverse]; exact hlast, hc⟩
        · exact ih [c0] (Or.inr ⟨c0, rfl, hcap⟩) t ht
    · rw [if_neg hcap] at ht
      rcases hinv with h | ⟨c, hlast, hc⟩
      · subst h
        simp only [List.isEmpty_nil, if_true] at ht
        exact ih [] (Or.inl rfl) t ht
      · have hne : acc.isEmpty = false := by
          cases acc with
          | nil => cases hlast
          | cons _ _ => rfl
        rw [hne] at ht
        simp only [Bool.false_eq_true, if_false] at ht
        refine ih (c0 :: acc) (Or.inr ⟨c, ?_, hc⟩) t ht
        cases acc with
        | nil => cases hlast
        | cons a l => rw [List.getLast?_cons_cons]; exact hlast

/-- Entities built from tokens with non-empty stripped text are
non-empty. -/
theorem buildEntities_ne_nil (ts : List PyStr) (h : ∀ t ∈ ts, pyStrip t ≠ []) :
    ∀ entity, ∀ e ∈ EtlFunctions.buildEntities ts entity, e ≠ [] := by
  induction ts with
  | nil => intro entity e he; cases he
  | cons t ts' ih =>
    intro entity e he
    rw [EtlFunctions.buildEntities] at he
    have hst : pyStrip t ≠ [] := h t (by simp)
    have hent : (if entity.isEmpty then pyStrip t else entity ++ ' ' :: pyStrip t) ≠ [] := by
      cases entity with
      | nil => simpa using hst
      | cons a l => simp
    by_cases hlast : t.getLastD ' ' ≠ ' '
    · rw [if_pos hlast] at he
      rcases List.mem_cons.mp he with h' | h'
      · subst h'
        exact hent
      · exact ih (fun x hx => h x (by simp [hx])) [] e h'
    · rw [if_neg hlast] at he
      exact ih (fun x hx => h x (by simp [hx])) _ e he

/-- C10: `split_with_capital_letter` never raises: a null (non-string)
input takes the `except` path and yields the empty list, and every string
input yields a list of tokens, each a non-empty glued entity. -/
theorem split_with_capital_letter_total :
    (EtlFunctions.split_with_capital_letter none = []) ∧
    (∀ s : PyStr, ∀ e ∈ EtlFunctions.split_with_capital_letter (some s), e ≠ []) := by
  constructor
  · rfl
  · intro s e he
    refine buildEntities_ne_nil (capitalTokens s) ?_ [] e he
    intro t ht
    obtain ⟨c, hh, hc⟩ := capitalTokensGo_head_cap s [] (Or.inl rfl) t ht
    exact pyStrip_ne_nil_of_head_cap t c hh hc

/-- C10 witness: the tokenizer output for the spec example, and the null
path. -/
theorem split_with_capital_letter_total_witness :
    ("United States".toList ≠ []) ∧
    (EtlFunctions.split_with_capital_letter none = []) :=
  ⟨split_with_capital_letter_total.2 ("United StatesUnited Kingdom".toList)
      ("United States".toList) (by decide),
    split_with_capital_letter_total.1⟩

namespace EtlFunctions

/-- `int(s)` as an expression that can raise. -/
def pyIntE (s : PyStr) : Except String Int :=
  match pyInt? s with
  | some n => .ok n
  | none => .error "ValueError: invalid literal for int()"

/-- The `records` dict built by `parse_actors`. -/
structure ActorRecords (α : Type) where
  title_id : List α
  actor_id : List PyStr
  actor_name : List PyStr
  order_num : List Int
deriving DecidableEq

/-- The `records` dict built by `parse_recommendations`. -/
structure RecommRecords (α : Type) where
  title_id : List α
  suggested_title_id : List PyStr
  order_num : List Int
deriving DecidableEq

/-- The `records` dict built by `parse_countries`. -/
structure CountryRecords (α : Type) where
  title_id : List α
  country : List PyStr
  order_num : List Int
deriving DecidableEq

/-- The `records` dict built by `parse_companies`. -/
structure CompanyRecords (α : Type) where
  title_id : List α
  company : List PyStr
  order_num : List Int
deriving DecidableEq

/-- `parse_actors` from `src/recsys/etl/functions.py`: one record per dict
entry; `actor_id` is the reference path before `?` with a trailing `/`
appended; `order_num` is `int(ref.split('_')[-1])` — parsed from the
reference path, not the position. -/
def parse_actors (title_id : α) (actors : List (PyStr × PyStr)) :
    Except String (ActorRecords α) :=
  match exMapM (fun p => (pyIntE ((pySplit p.2 ['_']).getLastD [])).map
      (fun n => (title_id, (pySplit p.2 ['?']).headD [] ++ ['/'], p.1, n))) actors with
  | .error e => .error e
  | .ok recs => .ok ⟨recs.map (fun r => r.1), recs.map (fun r => r.2.1),
      recs.map (fun r => r.2.2.1), recs.map (fun r => r.2.2.2)⟩

/-- `parse_recommendations`: one record per list element; the suggested
title id is the path before `?` (no trailing-slash renormalization);
`order_num` again comes from after the last underscore. -/
def parse_recommendations (title_id : α) (recomms : List PyStr) :
    Except String (RecommRecords α) :=
  match exMapM (fun r => (pyIntE ((pySplit r ['_']).getLastD [])).map
      (fun n => (title_id, (pySplit r ['?']).headD [], n))) recomms with
  | .error e => .error e
  | .ok recs => .ok ⟨recs.map (fun r => r.1), recs.map (fun r => r.2.1),
      recs.map (fun r => r.2.2)⟩

/-- `parse_countries`: one record per element with a positional 1-based
`order_num` (`int(num + 1)` over `enumerate`). -/
def parse_countries (title_id : α) (countries : List PyStr) : CountryRecords α :=
  ⟨countries.map (fun _ => title_id), countries,
    (List.range countries.length).map (fun num => Int.ofNat (num + 1))⟩

/-- `parse_companies`: identical to `parse_countries` for the company
column. -/
def parse_companies (title_id : α) (companies : List PyStr) : CompanyRecords α :=
  ⟨companies.map (fun _ => title_id), companies,
    (List.range companies.length).map (fun num => Int.ofNat (num + 1))⟩

end EtlFunctions

/-- C4 counterexample: `parse_actors` takes `order_num` from the reference
suffix, not from the 1-based position — a single-element dict whose ref
ends in `_7` yields `order_num = 7`, not `1`; and two refs both ending in
`_1` yield the duplicate `order_num`s `[1, 1]` within one `title_id`. -/
theorem parse_fanout_claim_false :
    (EtlFunctions.parse_actors (1 : Int)
        [("Solo".toList, "/name/nm0000001?ref_=tt_cl_t_7".toList)]
      = .ok ⟨[1], ["/name/nm0000001/".toList], ["Solo".toList], [7]⟩) ∧
    ((7 : Int) ≠ 1) ∧
    (EtlFunctions.parse_actors (1 : Int)
        [("A".toList, "/name/nm1?ref_=tt_cl_t_1".toList),
         ("B".toList, "/name/nm2?ref_=tt_cl_t_1".toList)]
      = .ok ⟨[1, 1], ["/name/nm1/".toList, "/name/nm2/".toList],
          ["A".toList, "B".toList], [1, 1]⟩) := by
  refine ⟨rfl, by decide, rfl⟩

/-- C4 (amended): every fan-out function emits exactly one child record per
element carrying the owning `title_id`.  `parse_countries` and
`parse_companies` assign the 1-based positional `order_num` (hence without
duplicates and in source order); `parse_actors` and
`parse_recommendations` instead parse `order_num` from the integer after
the last underscore of each reference path, which matches the position
only when the source refs are so numbered and may repeat. -/
theorem parse_fanout_spec :
    (∀ (tid : Int) (cs : List PyStr),
      (EtlFunctions.parse_countries tid cs).country = cs ∧
      (EtlFunctions.parse_countries tid cs).order_num
        = (List.range cs.length).map (fun num => Int.ofNat (num + 1)) ∧
      (EtlFunctions.parse_countries tid cs).order_num.Nodup ∧
      (∀ x ∈ (EtlFunctions.parse_countries tid cs).title_id, x = tid)) ∧
    (∀ (tid : Int) (cs : List PyStr),
      (EtlFunctions.parse_companies tid cs).company = cs ∧
      (EtlFunctions.parse_companies tid cs).order_num
        = (List.range cs.length).map (fun num => Int.ofNat (num + 1)) ∧
      (EtlFunctions.parse_companies tid cs).order_num.Nodup ∧
      (∀ x ∈ (EtlFunctions.parse_companies tid cs).title_id, x = tid)) ∧
    (∀ (tid : Int) (dct : List (PyStr × PyStr)) (g : PyStr × PyStr → Int),
      (∀ p ∈ dct, pyInt? ((pySplit p.2 ['_']).getLastD []) = some (g p)) →
      EtlFunctions.parse_actors tid dct
        = .ok ⟨dct.map (fun _ => tid),
            dct.map (fun p => (pySplit p.2 ['?']).headD [] ++ ['/']),
            dct.map (fun p => p.1), dct.map g⟩) ∧
    (∀ (tid : Int) (recomms : List PyStr) (g : PyStr → Int),
      (∀ r ∈ recomms, pyInt? ((pySplit r ['_']).getLastD []) = some (g r)) →
      EtlFunctions.parse_recommendations tid recomms
        = .ok ⟨recomms.map (fun _ => tid),
            recomms.map (fun r => (pySplit r ['?']).headD []),
            recomms.map g⟩) := by
  have hnodup : ∀ n : Nat, ((List.range n).map (fun num => Int.ofNat (num + 1))).Nodup := by
    intro n
    have hinj : Function.Injective (fun num : Nat => Int.ofNat (num + 1)) := by
      intro a b hab
      simp only at hab
      exact Nat.succ_injective (Int.ofNat.inj hab)
    exact List.Nodup.map hinj (List.nodup_range n)
  refine ⟨?_, ?_, ?_, ?_⟩
  · intro tid cs
    refine ⟨rfl, rfl, hnodup cs.length, ?_⟩
    intro x hx
    obtain ⟨c, _, rfl⟩ := List.mem_map.mp hx
    rfl
  · intro tid cs
    refine ⟨rfl, rfl, hnodup cs.length, ?_⟩
    intro x hx
    obtain ⟨c, _, rfl⟩ := List.mem_map.mp hx
    rfl
  · intro tid dct g hg
    unfold EtlFunctions.parse_actors
    have hmap : exMapM (fun p => (EtlFunctions.pyIntE ((pySplit p.2 ['_']).getLastD [])).map
        (fun n => (tid, (pySplit p.2 ['?']).headD [] ++ ['/'], p.1, n))) dct
        = .ok (dct.map (fun p =>
            (tid, (pySplit p.2 ['?']).headD [] ++ ['/'], p.1, g p))) := by
      apply exMapM_ok_of_forall
      intro p hp
      rw [show EtlFunctions.pyIntE ((pySplit p.2 ['_']).getLastD []) = .ok (g p) by
        unfold EtlFunctions.pyIntE
        rw [hg p hp]]
      rfl
    rw [hmap]
    dsimp only
    rw [List.map_map, List.map_map, List.map_map, List.map_map]
    rfl
  · intro tid recomms g hg
    unfold EtlFunctions.parse_recommendations
    have hmap : exMapM (fun r => (EtlFunctions.pyIntE ((pySplit r ['_']).getLastD [])).map
        (fun n => (tid, (pySplit r ['?']).headD [], n))) recomms
        = .ok (recomms.map (fun r => (tid, (pySplit r ['?']).headD [], g r))) := by
      apply exMapM_ok_of_forall
      intro r hr
      rw [show EtlFunctions.pyIntE ((pySplit r ['_']).getLastD []) = .ok (g r) by
        unfold EtlFunctions.pyIntE
        rw [hg r hr]]
      rfl
    rw [hmap]
    dsimp only
    rw [List.map_map, List.map_map, List.map_map]
    rfl

/-- C4 witness: the actor dict of the repository's test data fans out to
two records with `order_num` 1 and 2 from the `_1`/`_2` ref suffixes. -/
theorem parse_fanout_spec_witness :
    EtlFunctions.parse_actors (1 : Int)
        [("Christian Bale".toList, "/name/nm0000288?ref_=tt_cl_t_1".toList),
         ("Heath Ledger".toList, "/name/nm0005132?ref_=tt_cl_t_2".toList)]
      = .ok ⟨[1, 1], ["/name/nm0000288/".toList, "/name/nm0005132/".toList],
          ["Christian Bale".toList, "Heath Ledger".toList], [1, 2]⟩ := by
  have h := parse_fanout_spec.2.2.1 1
    [("Christian Bale".toList, "/name/nm0000288?ref_=tt_cl_t_1".toList),
     ("Heath Ledger".toList, "/name/nm0005132?ref_=tt_cl_t_2".toList)]
    (fun p => (pyInt? ((pySplit p.2 ['_']).getLastD [])).getD 0)
    (by decide)
  exact h.trans (by rfl)

namespace ImdbParser

/-- One driver pass of `ReviewCollector.collect` over the persisted
metadata table, modelled as a fold over the `(title_id,
reviews_collected_flg)` rows.  `ok?` abstracts whether the save of a
fetched title succeeds (the `try` block; on failure the flag stays unset).
Returned are the trace of title ids actually fetched
(`collect_title_reviews`, i.e. network requests, which happen before the
`try`) and the final metadata rows; the loop stops once `counter` reaches
`chunk_size` at the bottom of a non-skipped iteration. -/
def reviewCollect (ok? : α → Bool) (chunk : Nat) :
    List (α × Bool) → Nat → List α × List (α × Bool)
  | [], _ => ([], [])
  | (t, flg) :: rest, counter =>
    if flg then
      let r := reviewCollect ok? chunk rest counter
      (r.1, (t, flg) :: r.2)
    else
      let flg' := ok? t
      let counter' := if flg' then counter + 1 else counter
      if counter' = chunk then ([t], (t, flg') :: rest)
      else
        let r := reviewCollect ok? chunk rest counter'
        (t :: r.1, (t, flg') :: r.2)

/-- `movie_metadata[title_id].get('original_title', None)` is truthy:
present and a non-empty string. -/
def truthyTitle : Option PyStr → Bool
  | some s => !s.isEmpty
  | none => false

/-- One driver pass of `MetadataCollector.collect`, modelled over
`(title_id, original_title)` rows: a title whose `original_title` is
already truthy (a non-empty string) is skipped with `continue`; otherwise
`send_request` fires (the trace), and `fetch` abstracts its outcome
(`none` models an exception: the row is left unchanged and retried next
run).  After each non-skipped iteration the batch bookkeeping runs:
when `counter` reaches `BATCH_SIZE` or the original index `i` is the last
one, the table is written, `session_counter` accumulates and the pass
stops once it reaches `chunk_size`. -/
def metadataCollect (fetch : α → Option (Option PyStr)) (batch chunk n : Nat) :
    List (α × Option PyStr) → Nat → Nat → Nat → List α × List (α × Option PyStr)
  | [], _, _, _ => ([], [])
  | (t, marker) :: rest, i, counter, session =>
    if truthyTitle marker then
      let r := metadataCollect fetch batch chunk n rest (i + 1) counter session
      (r.1, (t, marker) :: r.2)
    else
      let upd := fetch t
      let marker' := match upd with | some v => v | none => marker
      let counter' := match upd with | some _ => counter + 1 | none => counter
      if counter' = batch ∨ i = n - 1 then
        if chunk ≤ session + counter' then ([t], (t, marker') :: rest)
        else
          let r := metadataCollect fetch batch chunk n rest (i + 1) 0 (session + counter')
          (t :: r.1, (t, marker') :: r.2)
      else
        let r := metadataCollect fetch batch chunk n rest (i + 1) counter' session
        (t :: r.1, (t, marker') :: r.2)

end ImdbParser

/-- Fetched review titles come from the table. -/
theorem reviewCollect_trace_subset {α : Type} (ok? : α → Bool) (chunk : Nat) :
    ∀ (meta : List (α × Bool)) (counter : Nat) (x : α),
      x ∈ (ImdbParser.reviewCollect ok? chunk meta counter).1 → x ∈ meta.map Prod.fst := by
  intro meta
  induction meta with
  | nil => intro counter x hx; cases hx
  | cons p rest ih =>
    intro counter x hx
    obtain ⟨t, flg⟩ := p
    rw [ImdbParser.reviewCollect] at hx
    by_cases hflg : flg = true
    · rw [if_pos hflg] at hx
      exact List.mem_cons_of_mem _ (ih counter x hx)
    · rw [if_neg hflg] at hx
      by_cases hcnt : (if ok? t then counter + 1 else counter) = chunk
      · rw [if_pos hcnt] at hx
        simp only [List.mem_singleton] at hx
        simp [hx]
      · rw [if_neg hcnt] at hx
        rcases List.mem_cons.mp hx with h | h
        · simp [h]
        · exact List.mem_cons_of_mem _ (ih _ x h)

/-- Fetched metadata titles come from the table. -/
theorem metadataCollect_trace_subset {α : Type} (fetch : α → Option (Option PyStr))
    (batch chunk n : Nat) :
    ∀ (meta : List (α × Option PyStr)) (i counter session : Nat) (x : α),
      x ∈ (ImdbParser.metadataCollect fetch batch chunk n meta i counter session).1 →
        x ∈ meta.map Prod.fst := by
  intro meta
  induction meta with
  | nil => intro i counter session x hx; cases hx
  | cons p rest ih =>
    intro i counter session x hx
    obtain ⟨t, marker⟩ := p
    rw [ImdbParser.metadataCollect] at hx
    by_cases hm : ImdbParser.truthyTitle marker = true
    · rw [if_pos hm] at hx
      exact List.mem_cons_of_mem _ (ih _ _ _ x hx)
    · rw [if_neg hm] at hx
      by_cases hb : (match fetch t with | some _ => counter + 1 | none => counter) = batch
          ∨ i = n - 1
      · rw [if_pos hb] at hx
        by_cases hs : chunk ≤ session
            + (match fetch t with | some _ => counter + 1 | none => counter)
        · rw [if_pos hs] at hx
          simp only [List.mem_singleton] at hx
          simp [hx]
        · rw [if_neg hs] at hx
          rcases List.mem_cons.mp hx with h | h
          · simp [h]
          · exact List.mem_cons_of_mem _ (ih _ _ _ x h)
      · rw [if_neg hb] at hx
        rcases List.mem_cons.mp hx with h | h
        · simp [h]
        · exact List.mem_cons_of_mem _ (ih _ _ _ x h)

/-- A review title whose `reviews_collected_flg` is already set is never
fetched (its id never enters the request trace). -/
theorem reviewCollect_skips_done {α : Type} (ok? : α → Bool) (chunk : Nat) :
    ∀ (meta : List (α × Bool)) (counter : Nat) (t : α),
      (meta.map Prod.fst).Nodup → (t, true) ∈ meta →
        t ∉ (ImdbParser.reviewCollect ok? chunk meta counter).1 := by
  intro meta
  induction meta with
  | nil => intro counter t _ hmem; cases hmem
  | cons p rest ih =>
    intro counter t hnd hmem hx
    obtain ⟨t0, flg0⟩ := p
    have hhead : t0 ∉ rest.map Prod.fst := (List.nodup_cons.mp hnd).1
    have hnd' : (rest.map Prod.fst).Nodup := (List.nodup_cons.mp hnd).2
    rw [ImdbParser.reviewCollect] at hx
    rcases List.mem_cons.mp hmem with heq | hrest
    · injection heq with h1 h2
      rw [if_pos h2.symm] at hx
      dsimp only at hx
      exact hhead (h1 ▸ reviewCollect_trace_subset ok? chunk rest counter t hx)
    · have htm : t ∈ rest.map Prod.fst := List.mem_map.mpr ⟨(t, true), hrest, rfl⟩
      have hne : t ≠ t0 := fun h => hhead (h ▸ htm)
      by_cases hflg : flg0 = true
      · rw [if_pos hflg] at hx
        dsimp only at hx
        exact ih counter t hnd' hrest hx
      · rw [if_neg hflg] at hx
        by_cases hcnt : (if ok? t0 then counter + 1 else counter) = chunk
        · rw [if_pos hcnt] at hx
          simp only [List.mem_singleton] at hx
          exact hne hx
        · rw [if_neg hcnt] at hx
          dsimp only at hx
          rcases List.mem_cons.mp hx with h | h
          · exact hne h
          · exact ih _ t hnd' hrest h

/-- A metadata title whose `original_title` marker is already truthy is
never fetched (its id never enters the request trace). -/
theorem metadataCollect_skips_done {α : Type} (fetch : α → Option (Option PyStr))
    (batch chunk n : Nat) :
    ∀ (meta : List (α × Option PyStr)) (i counter session : Nat) (t : α) (s : PyStr),
      (meta.map Prod.fst).Nodup → (t, some s) ∈ meta → s ≠ [] →
        t ∉ (ImdbParser.metadataCollect fetch batch chunk n meta i counter session).1 := by
  intro meta
  induction meta with
  | nil => intro i counter session t s _ hmem _; cases hmem
  | cons p rest ih =>
    intro i counter session t s hnd hmem hs hx
    obtain ⟨t0, m0⟩ := p
    have hhead : t0 ∉ rest.map Prod.fst := (List.nodup_cons.mp hnd).1
    have hnd' : (rest.map Prod.fst).Nodup := (List.nodup_cons.mp hnd).2
    rw [ImdbParser.metadataCollect] at hx
    rcases List.mem_cons.mp hmem with heq | hrest
    · injection heq with h1 h2
      have htr : ImdbParser.truthyTitle m0 = true := by
        rw [← h2]
        cases s with
        | nil => exact absurd rfl hs
        | cons a l => rfl
      rw [if_pos htr] at hx
      dsimp only at hx
      exact hhead
        (h1 ▸ metadataCollect_trace_subset fetch batch chunk n rest (i + 1) counter session t hx)
    · have htm : t ∈ rest.map Prod.fst := List.mem_map.mpr ⟨(t, some s), hrest, rfl⟩
      have hne : t ≠ t0 := fun h => hhead (h ▸ htm)
      by_cases htr : ImdbParser.truthyTitle m0 = true
      · rw [if_pos htr] at hx
        dsimp only at hx
        exact ih _ _ _ t s hnd' hrest hs hx
      · rw [if_neg htr] at hx
        by_cases hb : (match fetch t0 with | some _ => counter + 1 | none => counter) = batch
            ∨ i = n - 1
        · rw [if_pos hb] at hx
          by_cases hsb : chunk ≤ session
              + (match fetch t0 with | some _ => counter + 1 | none => counter)
          · rw [if_pos hsb] at hx
            simp only [List.mem_singleton] at hx
            exact hne hx
          · rw [if_neg hsb] at hx
            dsimp only at hx
            rcases List.mem_cons.mp hx with h | h
            · exact hne h
            · exact ih _ _ _ t s hnd' hrest hs h
        · rw [if_neg hb] at hx
          dsimp only at hx
          rcases List.mem_cons.mp hx with h | h
          · exact hne h
          · exact ih _ _ _ t s hnd' hrest hs h

/-- C7: on every driver pass over the persisted metadata table
(duplicate-free title ids), an entity already marked DONE is skipped
without any network request: a review title whose
`reviews_collected_flg` is set never enters `ReviewCollector.collect`'s
request trace, a metadata title whose `original_title` marker is already
a non-empty string never enters `MetadataCollector.collect`'s request
trace, and conversely every id in either trace belongs to an entry whose
flag, resp. truthy `original_title` marker, is not yet set. -/
theorem collectors_skip_done_entities {α : Type} (ok? : α → Bool)
    (fetch : α → Option (Option PyStr)) (batch chunk chunk2 n : Nat)
    (rmeta : List (α × Bool)) (mmeta : List (α × Option PyStr))
    (counter i mcounter session : Nat) (t u : α) (s : PyStr)
    (hrnd : (rmeta.map Prod.fst).Nodup) (hrt : (t, true) ∈ rmeta)
    (hmnd : (mmeta.map Prod.fst).Nodup) (hmu : (u, some s) ∈ mmeta) (hs : s ≠ []) :
    t ∉ (ImdbParser.reviewCollect ok? chunk rmeta counter).1 ∧
    u ∉ (ImdbParser.metadataCollect fetch batch chunk2 n mmeta i mcounter session).1 ∧
    (∀ x ∈ (ImdbParser.reviewCollect ok? chunk rmeta counter).1, (x, false) ∈ rmeta) ∧
    (∀ x ∈ (ImdbParser.metadataCollect fetch batch chunk2 n mmeta i mcounter session).1,
      ∃ m0, (x, m0) ∈ mmeta ∧ ImdbParser.truthyTitle m0 = false) := by
  refine ⟨reviewCollect_skips_done ok? chunk rmeta counter t hrnd hrt,
    metadataCollect_skips_done fetch batch chunk2 n mmeta i mcounter session u s hmnd hmu hs,
    ?_, ?_⟩
  · intro x hx
    obtain ⟨p, hp, hpe⟩ :=
      List.mem_map.mp (reviewCollect_trace_subset ok? chunk rmeta counter x hx)
    obtain ⟨x0, b⟩ := p
    cases b with
    | false => exact hpe ▸ hp
    | true =>
      exact absurd hx (hpe ▸ reviewCollect_skips_done ok? chunk rmeta counter x0 hrnd hp)
  · intro x hx
    obtain ⟨p, hp, hpe⟩ := List.mem_map.mp
      (metadataCollect_trace_subset fetch batch chunk2 n mmeta i mcounter session x hx)
    obtain ⟨x0, m0⟩ := p
    refine ⟨m0, hpe ▸ hp, ?_⟩
    by_contra htr
    rw [Bool.not_eq_false] at htr
    cases m0 with
    | none => simp [ImdbParser.truthyTitle] at htr
    | some s0 =>
      cases s0 with
      | nil => simp [ImdbParser.truthyTitle] at htr
      | cons a l =>
        exact absurd hx (hpe ▸ metadataCollect_skips_done fetch batch chunk2 n mmeta
          i mcounter session x0 (a :: l) hmnd hp (List.cons_ne_nil a l))

/-- Witness for C7: with review table [(1, DONE), (2, pending)] and
metadata table [(1, truthy title), (2, no title)], title 1 is absent from
both request traces. -/
theorem collectors_skip_done_entities_witness :
    (1 : Nat) ∉ (ImdbParser.reviewCollect (fun _ => true) 5 [(1, true), (2, false)] 0).1 ∧
    (1 : Nat) ∉ (ImdbParser.metadataCollect (fun _ => some (some ['x'])) 2 5 2
      [(1, some ['a']), (2, none)] 0 0 0).1 := by
  have h := collectors_skip_done_entities (fun _ => true)
    (fun _ => some (some ['x'])) 2 5 5 2 [(1, true), (2, false)]
    [(1, some ['a']), (2, none)] 0 0 0 0 1 1 ['a']
    (by decide) (by decide) (by decide) (by decide) (by decide)
  exact ⟨h.1, h.2.1⟩
